import Mathlib

/-!
Lattice value types of `llvm/Analysis/AliasAnalysis.h`.

A shallow embedding of the value classes `AliasResult`, `ModRefInfo` and
`FunctionModRefBehavior` declared in `include/llvm/Analysis/AliasAnalysis.h`,
followed by theorems about them.

Conventions of the embedding:

* bit-fields and `uint32_t` words are natural numbers, signed quantities are
  integers; a store into the signed 23-bit field goes through `wrapSigned`;
* an `assert` that fails is the value `none` of an `Option`;
* member functions that mutate `*this` return the new object.
-/

namespace llvm

/-! ## AliasResult -/

/-- The enumerators of `AliasResult::Kind`, an enumeration over `uint8_t`. -/
inductive AliasResult.Kind where
  | NoAlias
  | MayAlias
  | PartialAlias
  | MustAlias
  deriving DecidableEq, Repr

/-- The numeric value of each enumerator: `NoAlias = 0`, then consecutive. -/
def AliasResult.Kind.toNat : AliasResult.Kind → Nat
  | .NoAlias => 0
  | .MayAlias => 1
  | .PartialAlias => 2
  | .MustAlias => 3

/-- The enumerator whose value is `n`, if there is one: the reading of
`static_cast<Kind>(n)` as a named kind. -/
def AliasResult.Kind.ofNat? : Nat → Option AliasResult.Kind
  | 0 => some .NoAlias
  | 1 => some .MayAlias
  | 2 => some .PartialAlias
  | 3 => some .MustAlias
  | _ => none

/-- The class `AliasResult`: `unsigned int Alias : AliasBits`,
`unsigned int HasOffset : 1` and `signed int Offset : OffsetBits`. -/
structure AliasResult where
  Alias : Nat
  HasOffset : Bool
  Offset : Int
  deriving DecidableEq, Repr

/-- Value stored by a signed bit-field of width `w` when `x` is assigned to it
(two's complement wrap-around). -/
def wrapSigned (w : Nat) (x : Int) : Int :=
  (x + 2 ^ (w - 1)) % 2 ^ w - 2 ^ (w - 1)

/-- Modelled from the spec: the helper `isInt<N>(x)` of
`llvm/Support/MathExtras.h`, which is not among the sources; the spec calls the
offset "representable in a bounded signed range (23 bits in the reference
design)", that is `-2^(N-1) <= x < 2^(N-1)`. -/
def isInt (N : Nat) (x : Int) : Bool :=
  decide (-(2 : Int) ^ (N - 1) ≤ x) && decide (x < (2 : Int) ^ (N - 1))

namespace AliasResult

/-- Constant `static const int OffsetBits = 23`. -/
def OffsetBits : Nat := 23

/-- Constant `static const int AliasBits = 8`. -/
def AliasBits : Nat := 8

/-- Constructor `AliasResult(const Kind &Alias)`:
`Alias(Alias), HasOffset(false), Offset(0)`. -/
def ofKind (K : Kind) : AliasResult :=
  { Alias := K.toNat % 2 ^ AliasBits, HasOffset := false, Offset := wrapSigned OffsetBits 0 }

/-- Conversion `operator Kind()`: `static_cast<Kind>(Alias)`, as a named kind. -/
def kind (R : AliasResult) : Option Kind :=
  Kind.ofNat? R.Alias

/-- Conversion to `bool` (through `operator Kind()`): the value is non-zero. -/
def toBool (R : AliasResult) : Bool :=
  R.Alias != 0

/-- Member `hasOffset()`. -/
def hasOffset (R : AliasResult) : Bool :=
  R.HasOffset

/-- Member `getOffset()`: `assert(HasOffset && "No offset!"); return Offset;`. -/
def getOffset (R : AliasResult) : Option Int :=
  if R.HasOffset then some R.Offset else none

/-- Member `setOffset(int32_t NewOffset)`. -/
def setOffset (R : AliasResult) (NewOffset : Int) : AliasResult :=
  if isInt OffsetBits NewOffset then
    { R with HasOffset := true, Offset := wrapSigned OffsetBits NewOffset }
  else R

/-- Member `swap(bool DoSwap)`:
`if (DoSwap && hasOffset()) setOffset(-getOffset());`. -/
def swap (R : AliasResult) (DoSwap : Bool) : Option AliasResult :=
  if DoSwap && R.hasOffset then
    match R.getOffset with
    | some o => some (R.setOffset (-o))
    | none => none
  else some R

/-- One call of a mutating member function. -/
inductive Op where
  | setOffset (NewOffset : Int)
  | swap (DoSwap : Bool)
  deriving DecidableEq, Repr

/-- Effect of one call on an object. -/
def applyOp (R : AliasResult) : Op → Option AliasResult
  | .setOffset n => some (R.setOffset n)
  | .swap b => R.swap b

/-- Effect of a sequence of calls, first call first. -/
def run (R : AliasResult) : List Op → Option AliasResult
  | [] => some R
  | op :: ops =>
    match R.applyOp op with
    | some R1 => run R1 ops
    | none => none

/-- The 23-bit signed range of the `Offset` field. -/
def InRange (n : Int) : Prop :=
  -(2 : Int) ^ 22 ≤ n ∧ n ≤ 2 ^ 22 - 1

instance (n : Int) : Decidable (InRange n) := by
  unfold InRange; infer_instance

end AliasResult

/-! ## ModRefInfo -/

/-- The enumeration `ModRefInfo` over `uint8_t`. -/
inductive ModRefInfo where
  | NoModRef
  | Ref
  | Mod
  | ModRef
  deriving DecidableEq, Repr

namespace ModRefInfo

/-- The numeric values: `NoModRef = 0`, `Ref = 1`, `Mod = 2`, `ModRef = Ref | Mod`. -/
def toNat : ModRefInfo → Nat
  | .NoModRef => 0
  | .Ref => 1
  | .Mod => 2
  | .ModRef => 1 ||| 2

/-- The cast `ModRefInfo(n)`. The header only applies it to a value masked by
`LocMask`, so that `n < 4`; larger values name no enumerator and are sent to
`ModRef` here. -/
def ofBits : Nat → ModRefInfo
  | 0 => .NoModRef
  | 1 => .Ref
  | 2 => .Mod
  | _ => .ModRef

/-- Modelled from the spec: `operator|` given to the enumeration by
`LLVM_MARK_AS_BITMASK_ENUM` (llvm/ADT/BitmaskEnum.h, not among the sources);
the spec calls it the bitwise union on the 2-bit encoding. -/
def or (a b : ModRefInfo) : ModRefInfo :=
  ofBits (a.toNat ||| b.toNat)

/-- Modelled from the spec: `operator&` given to the enumeration by
`LLVM_MARK_AS_BITMASK_ENUM` (llvm/ADT/BitmaskEnum.h, not among the sources);
the spec calls it the bitwise intersection on the 2-bit encoding. -/
def and (a b : ModRefInfo) : ModRefInfo :=
  ofBits (a.toNat &&& b.toNat)

end ModRefInfo

/-- Function `isNoModRef`. -/
def isNoModRef (MRI : ModRefInfo) : Bool :=
  MRI == ModRefInfo.NoModRef

/-- Function `isModOrRefSet`. -/
def isModOrRefSet (MRI : ModRefInfo) : Bool :=
  MRI != ModRefInfo.NoModRef

/-- Function `isModAndRefSet`. -/
def isModAndRefSet (MRI : ModRefInfo) : Bool :=
  MRI == ModRefInfo.ModRef

/-- Function `isModSet`: `static_cast<int>(MRI) & static_cast<int>(ModRefInfo::Mod)`
converted to `bool`. -/
def isModSet (MRI : ModRefInfo) : Bool :=
  (MRI.toNat &&& ModRefInfo.Mod.toNat) != 0

/-- Function `isRefSet`: `static_cast<int>(MRI) & static_cast<int>(ModRefInfo::Ref)`
converted to `bool`. -/
def isRefSet (MRI : ModRefInfo) : Bool :=
  (MRI.toNat &&& ModRefInfo.Ref.toNat) != 0

/-- Function `unionModRef`. -/
def unionModRef (MRI1 MRI2 : ModRefInfo) : ModRefInfo :=
  MRI1.or MRI2

/-- Function `intersectModRef`. -/
def intersectModRef (MRI1 MRI2 : ModRefInfo) : ModRefInfo :=
  MRI1.and MRI2

/-! ## FunctionModRefBehavior -/

/-- The enumeration `FunctionModRefBehavior::Location`. -/
inductive FunctionModRefBehavior.Location where
  | ArgMem
  | InaccessibleMem
  | Other
  deriving DecidableEq, Repr

/-- The numeric values: `ArgMem = 0`, `InaccessibleMem = 1`, `Other = 2`. -/
def FunctionModRefBehavior.Location.toNat : FunctionModRefBehavior.Location → Nat
  | .ArgMem => 0
  | .InaccessibleMem => 1
  | .Other => 2

/-- The class `FunctionModRefBehavior`: one word `uint32_t Data`. -/
structure FunctionModRefBehavior where
  Data : Nat
  deriving DecidableEq, Repr

/-- Complement `~x` of a `uint32_t`. -/
def not32 (x : Nat) : Nat :=
  (2 ^ 32 - 1) ^^^ x

namespace FunctionModRefBehavior

/-- Constant `BitsPerLoc = 2`. -/
def BitsPerLoc : Nat := 2

/-- Constant `LocMask = (1 << BitsPerLoc) - 1`. -/
def LocMask : Nat := (1 <<< BitsPerLoc) - 1

/-- Function `getLocationPos`: `(uint32_t)Loc * BitsPerLoc`. -/
def getLocationPos (Loc : Location) : Nat :=
  Loc.toNat * BitsPerLoc

/-- Function `locations()`: the inclusive sequence from `ArgMem` to `Other`. -/
def locations : List Location :=
  [.ArgMem, .InaccessibleMem, .Other]

/-- Member `setModRef`:
`Data &= ~(LocMask << getLocationPos(Loc));`
`Data |= static_cast<uint32_t>(MR) << getLocationPos(Loc);`. -/
def setModRef (B : FunctionModRefBehavior) (Loc : Location) (MR : ModRefInfo) :
    FunctionModRefBehavior :=
  let Data1 := B.Data &&& not32 (LocMask <<< getLocationPos Loc)
  { Data := Data1 ||| (MR.toNat <<< getLocationPos Loc) }

/-- Constructor `FunctionModRefBehavior(Location Loc, ModRefInfo MR)`, which
starts from `Data = 0`. -/
def ofLoc (Loc : Location) (MR : ModRefInfo) : FunctionModRefBehavior :=
  setModRef { Data := 0 } Loc MR

/-- Constructor `FunctionModRefBehavior(ModRefInfo MR)`: `setModRef(Loc, MR)`
for every `Loc` of `locations()`, from `Data = 0`. -/
def ofModRef (MR : ModRefInfo) : FunctionModRefBehavior :=
  locations.foldl (fun B Loc => setModRef B Loc MR) { Data := 0 }

/-- Preset `unknown()`. -/
def unknown : FunctionModRefBehavior := ofModRef .ModRef

/-- Preset `none()`. -/
def none : FunctionModRefBehavior := ofModRef .NoModRef

/-- Preset `readOnly()`. -/
def readOnly : FunctionModRefBehavior := ofModRef .Ref

/-- Preset `writeOnly()`. -/
def writeOnly : FunctionModRefBehavior := ofModRef .Mod

/-- Preset `argMemOnly(MR)`. -/
def argMemOnly (MR : ModRefInfo) : FunctionModRefBehavior := ofLoc .ArgMem MR

/-- Preset `inaccessibleMemOnly(MR)`. -/
def inaccessibleMemOnly (MR : ModRefInfo) : FunctionModRefBehavior :=
  ofLoc .InaccessibleMem MR

/-- Preset `inaccessibleOrArgMemOnly(MR)`. -/
def inaccessibleOrArgMemOnly (MR : ModRefInfo) : FunctionModRefBehavior :=
  setModRef (setModRef none .ArgMem MR) .InaccessibleMem MR

/-- Member `getModRef(Location Loc)`:
`ModRefInfo((Data >> getLocationPos(Loc)) & LocMask)`. -/
def getModRef (B : FunctionModRefBehavior) (Loc : Location) : ModRefInfo :=
  ModRefInfo.ofBits ((B.Data >>> getLocationPos Loc) &&& LocMask)

/-- Member `getWithModRef(Loc, MR)`. -/
def getWithModRef (B : FunctionModRefBehavior) (Loc : Location) (MR : ModRefInfo) :
    FunctionModRefBehavior :=
  setModRef B Loc MR

/-- Member `getWithoutLoc(Loc)`. -/
def getWithoutLoc (B : FunctionModRefBehavior) (Loc : Location) : FunctionModRefBehavior :=
  setModRef B Loc .NoModRef

/-- Member `getModRef()` for any location: the union of `getModRef(Loc)` over
`locations()`, starting from `NoModRef`. -/
def getModRefAny (B : FunctionModRefBehavior) : ModRefInfo :=
  locations.foldl (fun MR Loc => MR.or (getModRef B Loc)) .NoModRef

/-- Member `doesNotAccessMemory()`: `Data == 0`. -/
def doesNotAccessMemory (B : FunctionModRefBehavior) : Bool :=
  B.Data == 0

/-- Member `onlyReadsMemory()`. -/
def onlyReadsMemory (B : FunctionModRefBehavior) : Bool :=
  !isModSet (getModRefAny B)

/-- Member `onlyWritesMemory()`. -/
def onlyWritesMemory (B : FunctionModRefBehavior) : Bool :=
  !isRefSet (getModRefAny B)

/-- Member `onlyAccessesArgPointees()`. -/
def onlyAccessesArgPointees (B : FunctionModRefBehavior) : Bool :=
  (getWithoutLoc B .ArgMem).doesNotAccessMemory

/-- Member `doesAccessArgPointees()`. -/
def doesAccessArgPointees (B : FunctionModRefBehavior) : Bool :=
  isModOrRefSet (getModRef B .ArgMem)

/-- Member `onlyAccessesInaccessibleMem()`. -/
def onlyAccessesInaccessibleMem (B : FunctionModRefBehavior) : Bool :=
  (getWithoutLoc B .InaccessibleMem).doesNotAccessMemory

/-- Member `onlyAccessesInaccessibleOrArgMem()`. -/
def onlyAccessesInaccessibleOrArgMem (B : FunctionModRefBehavior) : Bool :=
  isNoModRef (getModRef B .Other)

/-- Member `operator&`: `FunctionModRefBehavior(Data & Other.Data)`. -/
def inter (B Other : FunctionModRefBehavior) : FunctionModRefBehavior :=
  { Data := B.Data &&& Other.Data }

/-- Member `operator&=`: `Data &= Other.Data; return *this;`. -/
def interAssign (B Other : FunctionModRefBehavior) : FunctionModRefBehavior :=
  { B with Data := B.Data &&& Other.Data }

/-- Member `operator|`: `FunctionModRefBehavior(Data | Other.Data)`. -/
def union (B Other : FunctionModRefBehavior) : FunctionModRefBehavior :=
  { Data := B.Data ||| Other.Data }

/-- Member `operator|=`: `Data |= Other.Data; return *this;`. -/
def unionAssign (B Other : FunctionModRefBehavior) : FunctionModRefBehavior :=
  { B with Data := B.Data ||| Other.Data }

/-- Member `operator==`: `Data == Other.Data`. -/
def eq (B Other : FunctionModRefBehavior) : Bool :=
  B.Data == Other.Data

/-- Member `operator!=`: `!operator==(Other)`. -/
def ne (B Other : FunctionModRefBehavior) : Bool :=
  !(eq B Other)

/-- The behavior of the round-trip test of the specification, built through
the public interface: `ArgMem = Ref`, `InaccessibleMem = NoModRef`,
`Other = Mod`. -/
def roundTripExample : FunctionModRefBehavior :=
  getWithModRef (getWithModRef (ofLoc .ArgMem .Ref) .InaccessibleMem .NoModRef) .Other .Mod

/-- The behaviors obtainable through the public interface of the class: the
two public constructors, the presets, `getWithModRef`, `getWithoutLoc`, and
the operators `&`, `|`, `&=`, `|=` applied to obtainable behaviors. The
constructor from a raw `uint32_t` is private. -/
inductive Obtainable : FunctionModRefBehavior → Prop where
  | ofLoc (Loc : Location) (MR : ModRefInfo) : Obtainable (ofLoc Loc MR)
  | ofModRef (MR : ModRefInfo) : Obtainable (ofModRef MR)
  | unknown : Obtainable unknown
  | none : Obtainable none
  | readOnly : Obtainable readOnly
  | writeOnly : Obtainable writeOnly
  | argMemOnly (MR : ModRefInfo) : Obtainable (argMemOnly MR)
  | inaccessibleMemOnly (MR : ModRefInfo) : Obtainable (inaccessibleMemOnly MR)
  | inaccessibleOrArgMemOnly (MR : ModRefInfo) : Obtainable (inaccessibleOrArgMemOnly MR)
  | getWithModRef {B : FunctionModRefBehavior} (Loc : Location) (MR : ModRefInfo) :
      Obtainable B → Obtainable (getWithModRef B Loc MR)
  | getWithoutLoc {B : FunctionModRefBehavior} (Loc : Location) :
      Obtainable B → Obtainable (getWithoutLoc B Loc)
  | inter {A B : FunctionModRefBehavior} : Obtainable A → Obtainable B → Obtainable (inter A B)
  | interAssign {A B : FunctionModRefBehavior} :
      Obtainable A → Obtainable B → Obtainable (interAssign A B)
  | union {A B : FunctionModRefBehavior} : Obtainable A → Obtainable B → Obtainable (union A B)
  | unionAssign {A B : FunctionModRefBehavior} :
      Obtainable A → Obtainable B → Obtainable (unionAssign A B)

end FunctionModRefBehavior

/-! ## AAQueryInfo -/

/-- The struct `AACacheLoc`: `const Value *Ptr` as the identity of the pointer
and `LocationSize Size` as the one word that `LocationSize` wraps (declared in
llvm/Analysis/MemoryLocation.h). -/
structure AACacheLoc where
  Ptr : Nat
  Size : Nat
  deriving DecidableEq, Repr

namespace AAQueryInfo

/-- Type `LocPair = std::pair<AACacheLoc, AACacheLoc>`. -/
abbrev LocPair := AACacheLoc × AACacheLoc

/-- The struct `AAQueryInfo::CacheEntry`: an `AliasResult` and the
`int NumAssumptionUses`. -/
structure CacheEntry where
  Result : AliasResult
  NumAssumptionUses : Int
  deriving DecidableEq, Repr

/-- Member `CacheEntry::isDefinitive()`: `NumAssumptionUses < 0`. -/
def CacheEntry.isDefinitive (E : CacheEntry) : Bool :=
  decide (E.NumAssumptionUses < 0)

end AAQueryInfo

/-- The class `AAQueryInfo`. The map `AliasCache` is the list of its
key/value pairs, `CaptureInfo *CI` is the identity of the provider pointed to,
`Depth` is `unsigned`, `NumAssumptionUses` is `int`. -/
structure AAQueryInfo where
  AliasCache : List (AAQueryInfo.LocPair × AAQueryInfo.CacheEntry)
  CI : Nat
  Depth : Nat
  NumAssumptionUses : Int
  AssumptionBasedResults : List AAQueryInfo.LocPair
  deriving DecidableEq, Repr

namespace AAQueryInfo

/-- Constructor `AAQueryInfo(CaptureInfo *CI) : CI(CI) {}` with the default
member initializers `Depth = 0`, `NumAssumptionUses = 0` and the empty
containers. -/
def ofCI (CI : Nat) : AAQueryInfo :=
  { AliasCache := [], CI := CI, Depth := 0, NumAssumptionUses := 0,
    AssumptionBasedResults := [] }

/-- Member `withEmptyCache()`:
`AAQueryInfo NewAAQI(CI); NewAAQI.Depth = Depth; return NewAAQI;`.
The first component is the object after the call, the second the returned
query info. -/
def withEmptyCache (Q : AAQueryInfo) : AAQueryInfo × AAQueryInfo :=
  let NewAAQI := ofCI Q.CI
  let NewAAQI := { NewAAQI with Depth := Q.Depth }
  (Q, NewAAQI)

end AAQueryInfo

/-! ## AAResults, its component interface and BatchAAResults

The classes of the program representation (`Value`, `CallBase`, `Function`,
`Instruction`, `DominatorTree`) are only declared in the header and only
handled through pointers: a pointer is the identity of its object, a natural
number. A parameter `AAQueryInfo &AAQI` is passed in and returned. The word
`alias` is reserved in Lean, so the operation `alias` is named `aliasQuery`. -/

/-- Modelled from the spec: the class `MemoryLocation` of
llvm/Analysis/MemoryLocation.h, which is not among the sources: "identity of a
base pointer plus a size descriptor", "plus an optional type tag". -/
structure MemoryLocation where
  Ptr : Nat
  Size : Nat
  AATags : Option Nat
  deriving DecidableEq, Repr

/-- The abstract class `AAResults::Concept`: the seven query operations that
every registered component provides. -/
structure AAResults.Concept where
  aliasQuery : MemoryLocation → MemoryLocation → AAQueryInfo → AliasResult × AAQueryInfo
  pointsToConstantMemory : MemoryLocation → AAQueryInfo → Bool → Bool × AAQueryInfo
  getArgModRefInfo : Nat → Nat → ModRefInfo
  getModRefBehaviorCall : Nat → FunctionModRefBehavior
  getModRefBehaviorFn : Nat → FunctionModRefBehavior
  getModRefInfoLoc : Nat → MemoryLocation → AAQueryInfo → ModRefInfo × AAQueryInfo
  getModRefInfoCalls : Nat → Nat → AAQueryInfo → ModRefInfo × AAQueryInfo

/-- The query member functions of `AAResults` that the header declares and
whose bodies are in lib/Analysis/AliasAnalysis.cpp, outside the sources: they
are taken as given. The first seven are those a proxy forwards to, the others
are the further overloads taking an `AAQueryInfo &` that `BatchAAResults`
calls. -/
structure AAResults.Queries where
  aliasQuery : MemoryLocation → MemoryLocation → AAQueryInfo → AliasResult × AAQueryInfo
  pointsToConstantMemory : MemoryLocation → AAQueryInfo → Bool → Bool × AAQueryInfo
  getArgModRefInfo : Nat → Nat → ModRefInfo
  getModRefBehaviorCall : Nat → FunctionModRefBehavior
  getModRefBehaviorFn : Nat → FunctionModRefBehavior
  getModRefInfoLoc : Nat → MemoryLocation → AAQueryInfo → ModRefInfo × AAQueryInfo
  getModRefInfoCalls : Nat → Nat → AAQueryInfo → ModRefInfo × AAQueryInfo
  getModRefInfoInst : Nat → Option MemoryLocation → AAQueryInfo → ModRefInfo × AAQueryInfo
  getModRefInfoInstCall : Nat → Nat → AAQueryInfo → ModRefInfo × AAQueryInfo
  callCapturesBefore : Nat → MemoryLocation → Nat → AAQueryInfo → ModRefInfo × AAQueryInfo

/-- An object of a type derived from `AAResultBase<DerivedT>`: the member
`AAResults *AAR` (null, or the aggregation reached through the pointer) and
the operations of the derived type, which `derived()` dispatches to. -/
structure AAResultBase where
  AAR : Option AAResults.Queries
  derived : AAResults.Concept

namespace AAResultBase

/-- Default `AAResultBase::alias`: `return AliasResult::MayAlias;`. -/
def aliasQuery (_LocA _LocB : MemoryLocation) (AAQI : AAQueryInfo) : AliasResult × AAQueryInfo :=
  (AliasResult.ofKind .MayAlias, AAQI)

/-- Default `AAResultBase::pointsToConstantMemory`: `return false;`. -/
def pointsToConstantMemory (_Loc : MemoryLocation) (AAQI : AAQueryInfo) (_OrLocal : Bool) :
    Bool × AAQueryInfo :=
  (false, AAQI)

/-- Default `AAResultBase::getArgModRefInfo`: `return ModRefInfo::ModRef;`. -/
def getArgModRefInfo (_Call _ArgIdx : Nat) : ModRefInfo :=
  .ModRef

/-- Default `AAResultBase::getModRefBehavior(const CallBase *)`:
`return FunctionModRefBehavior::unknown();`. -/
def getModRefBehaviorCall (_Call : Nat) : FunctionModRefBehavior :=
  FunctionModRefBehavior.unknown

/-- Default `AAResultBase::getModRefBehavior(const Function *)`:
`return FunctionModRefBehavior::unknown();`. -/
def getModRefBehaviorFn (_F : Nat) : FunctionModRefBehavior :=
  FunctionModRefBehavior.unknown

/-- Default `AAResultBase::getModRefInfo(Call, Loc, AAQI)`:
`return ModRefInfo::ModRef;`. -/
def getModRefInfoLoc (_Call : Nat) (_Loc : MemoryLocation) (AAQI : AAQueryInfo) :
    ModRefInfo × AAQueryInfo :=
  (.ModRef, AAQI)

/-- Default `AAResultBase::getModRefInfo(Call1, Call2, AAQI)`:
`return ModRefInfo::ModRef;`. -/
def getModRefInfoCalls (_Call1 _Call2 : Nat) (AAQI : AAQueryInfo) : ModRefInfo × AAQueryInfo :=
  (.ModRef, AAQI)

/-- The operations of a derived type that overrides none of them. -/
def defaults : AAResults.Concept :=
  { aliasQuery := aliasQuery
    pointsToConstantMemory := pointsToConstantMemory
    getArgModRefInfo := getArgModRefInfo
    getModRefBehaviorCall := getModRefBehaviorCall
    getModRefBehaviorFn := getModRefBehaviorFn
    getModRefInfoLoc := getModRefInfoLoc
    getModRefInfoCalls := getModRefInfoCalls }

/-- Constructor `explicit AAResultBase() = default` of a derived object with
the given operations: `AAR = nullptr`. -/
def ofDerived (D : AAResults.Concept) : AAResultBase :=
  { AAR := Option.none, derived := D }

/-- Member `setAAResults(AAResults *NewAAR)`: `AAR = NewAAR;`. -/
def setAAResults (R : AAResultBase) (NewAAR : Option AAResults.Queries) : AAResultBase :=
  { R with AAR := NewAAR }

end AAResultBase

/-- The class `AAResultBase::AAResultsProxy`: `AAResults *AAR` and
`DerivedT &CurrentResult`. -/
structure AAResultsProxy where
  AAR : Option AAResults.Queries
  CurrentResult : AAResults.Concept

namespace AAResultsProxy

/-- Proxy `alias`: `AAR ? AAR->alias(LocA, LocB, AAQI) : CurrentResult.alias(LocA, LocB, AAQI)`. -/
def aliasQuery (P : AAResultsProxy) (LocA LocB : MemoryLocation) (AAQI : AAQueryInfo) :
    AliasResult × AAQueryInfo :=
  match P.AAR with
  | some AAR => AAR.aliasQuery LocA LocB AAQI
  | Option.none => P.CurrentResult.aliasQuery LocA LocB AAQI

/-- Proxy `pointsToConstantMemory`. -/
def pointsToConstantMemory (P : AAResultsProxy) (Loc : MemoryLocation) (AAQI : AAQueryInfo)
    (OrLocal : Bool) : Bool × AAQueryInfo :=
  match P.AAR with
  | some AAR => AAR.pointsToConstantMemory Loc AAQI OrLocal
  | Option.none => P.CurrentResult.pointsToConstantMemory Loc AAQI OrLocal

/-- Proxy `getArgModRefInfo`. -/
def getArgModRefInfo (P : AAResultsProxy) (Call ArgIdx : Nat) : ModRefInfo :=
  match P.AAR with
  | some AAR => AAR.getArgModRefInfo Call ArgIdx
  | Option.none => P.CurrentResult.getArgModRefInfo Call ArgIdx

/-- Proxy `getModRefBehavior(const CallBase *)`. -/
def getModRefBehaviorCall (P : AAResultsProxy) (Call : Nat) : FunctionModRefBehavior :=
  match P.AAR with
  | some AAR => AAR.getModRefBehaviorCall Call
  | Option.none => P.CurrentResult.getModRefBehaviorCall Call

/-- Proxy `getModRefBehavior(const Function *)`. -/
def getModRefBehaviorFn (P : AAResultsProxy) (F : Nat) : FunctionModRefBehavior :=
  match P.AAR with
  | some AAR => AAR.getModRefBehaviorFn F
  | Option.none => P.CurrentResult.getModRefBehaviorFn F

/-- Proxy `getModRefInfo(Call, Loc, AAQI)`. -/
def getModRefInfoLoc (P : AAResultsProxy) (Call : Nat) (Loc : MemoryLocation)
    (AAQI : AAQueryInfo) : ModRefInfo × AAQueryInfo :=
  match P.AAR with
  | some AAR => AAR.getModRefInfoLoc Call Loc AAQI
  | Option.none => P.CurrentResult.getModRefInfoLoc Call Loc AAQI

/-- Proxy `getModRefInfo(Call1, Call2, AAQI)`. -/
def getModRefInfoCalls (P : AAResultsProxy) (Call1 Call2 : Nat) (AAQI : AAQueryInfo) :
    ModRefInfo × AAQueryInfo :=
  match P.AAR with
  | some AAR => AAR.getModRefInfoCalls Call1 Call2 AAQI
  | Option.none => P.CurrentResult.getModRefInfoCalls Call1 Call2 AAQI

end AAResultsProxy

/-- Member `AAResultBase::getBestAAResults()`:
`return AAResultsProxy(AAR, derived());`. -/
def AAResultBase.getBestAAResults (R : AAResultBase) : AAResultsProxy :=
  { AAR := R.AAR, CurrentResult := R.derived }

/-- The class template `AAResults::Model<AAResultT>` as a `Concept`: every
operation forwards to the wrapped `Result`. -/
def AAResults.Model (Result : AAResultBase) : AAResults.Concept :=
  { aliasQuery := fun LocA LocB AAQI => Result.derived.aliasQuery LocA LocB AAQI
    pointsToConstantMemory := fun Loc AAQI OrLocal =>
      Result.derived.pointsToConstantMemory Loc AAQI OrLocal
    getArgModRefInfo := fun Call ArgIdx => Result.derived.getArgModRefInfo Call ArgIdx
    getModRefBehaviorCall := fun Call => Result.derived.getModRefBehaviorCall Call
    getModRefBehaviorFn := fun F => Result.derived.getModRefBehaviorFn F
    getModRefInfoLoc := fun Call Loc AAQI => Result.derived.getModRefInfoLoc Call Loc AAQI
    getModRefInfoCalls := fun Call1 Call2 AAQI =>
      Result.derived.getModRefInfoCalls Call1 Call2 AAQI }

/-- The class `AAResults`: its declared query functions, the registered
components `AAs` in registration order and the dependency keys `AADeps`. -/
structure AAResults where
  queries : AAResults.Queries
  AAs : List AAResults.Concept
  AADeps : List Nat

namespace AAResults

/-- Member `addAAResult(AAResult)`:
`AAs.emplace_back(new Model<AAResultT>(AAResult, *this));`, where the
constructor of `Model` runs `Result.setAAResults(&AAR)`. The result is the
aggregation after the call and the registered object after the call. -/
def addAAResult (E : AAResults) (AAResult : AAResultBase) : AAResults × AAResultBase :=
  let Result := AAResult.setAAResults (some E.queries)
  ({ E with AAs := E.AAs ++ [Model Result] }, Result)

/-- Member `addAADependencyID(ID)`: `AADeps.push_back(ID);`. -/
def addAADependencyID (E : AAResults) (ID : Nat) : AAResults :=
  { E with AADeps := E.AADeps ++ [ID] }

end AAResults

namespace AAResults

/-- Modelled from the spec: the loop of `AAResults::alias(LocA, LocB, AAQI)`,
whose body is in lib/Analysis/AliasAnalysis.cpp, outside the sources: "iterate
components in registration order, replacing the running value with a
component's answer whenever it is strictly more precise; stop early once the
most precise terminal value is reached (`NoAlias` ...)". The spec does not
spell out the precision order: `morePrecise a r` reads "`a` is strictly more
precise than `r`". -/
def aliasLoop (morePrecise : AliasResult → AliasResult → Bool) (LocA LocB : MemoryLocation) :
    List Concept → AliasResult → AAQueryInfo → AliasResult × AAQueryInfo
  | [], Result, AAQI => (Result, AAQI)
  | AA :: rest, Result, AAQI =>
    if Result.kind = some .NoAlias then (Result, AAQI)
    else
      let answer := AA.aliasQuery LocA LocB AAQI
      aliasLoop morePrecise LocA LocB rest
        (if morePrecise answer.1 Result then answer.1 else Result) answer.2

/-- Modelled from the spec: `AAResults::alias(LocA, LocB, AAQI)` (body in
lib/Analysis/AliasAnalysis.cpp, outside the sources): "start from the least
precise lattice value (`MayAlias` ...)" and run the loop over the registered
components. -/
def aliasAggregated (morePrecise : AliasResult → AliasResult → Bool) (E : AAResults)
    (LocA LocB : MemoryLocation) (AAQI : AAQueryInfo) : AliasResult × AAQueryInfo :=
  aliasLoop morePrecise LocA LocB E.AAs (AliasResult.ofKind .MayAlias) AAQI

/-- Modelled from the spec: the public `AAResults::alias(LocA, LocB)` (body in
lib/Analysis/AliasAnalysis.cpp, outside the sources): "`AAQueryInfo` is created
fresh per root query"; `CI` is the capture info provider of the fresh
`SimpleAAQueryInfo`. -/
def aliasRoot (morePrecise : AliasResult → AliasResult → Bool) (E : AAResults) (CI : Nat)
    (LocA LocB : MemoryLocation) : AliasResult :=
  (aliasAggregated morePrecise E LocA LocB (AAQueryInfo.ofCI CI)).1

/-- What the spec states about the precision order of alias results: `NoAlias`
is "the most precise terminal value", strictly more precise than any result of
another kind. -/
def NoAliasMostPrecise (morePrecise : AliasResult → AliasResult → Bool) : Prop :=
  ∀ a r : AliasResult, a.kind = some .NoAlias → r.kind ≠ some .NoAlias → morePrecise a r = true

/-- A component reports `NoAlias` for the pair `(LocA, LocB)`, whatever the
state of the query info it is handed. -/
def ReportsNoAlias (AA : Concept) (LocA LocB : MemoryLocation) : Prop :=
  ∀ AAQI : AAQueryInfo, (AA.aliasQuery LocA LocB AAQI).1.kind = some .NoAlias

/-- An example of a precision order in which `NoAlias` is the most precise
value: `NoAlias` above `MustAlias` above `PartialAlias` above `MayAlias`. -/
def examplePrecision (a r : AliasResult) : Bool :=
  let rank : AliasResult → Nat := fun x =>
    match x.kind with
    | some .NoAlias => 3
    | some .MustAlias => 2
    | some .PartialAlias => 1
    | _ => 0
  decide (rank r < rank a)

/-- An example component: the default operations, with `alias` answering the
constant kind `K`. -/
def constantComponent (K : AliasResult.Kind) : Concept :=
  { AAResultBase.defaults with aliasQuery := fun _ _ AAQI => (AliasResult.ofKind K, AAQI) }

/-- An example aggregation: two registered components, the first answering
`MustAlias` and the second `NoAlias` to every alias query. -/
def exampleEngine : AAResults :=
  { queries :=
      { aliasQuery := AAResultBase.aliasQuery
        pointsToConstantMemory := AAResultBase.pointsToConstantMemory
        getArgModRefInfo := AAResultBase.getArgModRefInfo
        getModRefBehaviorCall := AAResultBase.getModRefBehaviorCall
        getModRefBehaviorFn := AAResultBase.getModRefBehaviorFn
        getModRefInfoLoc := AAResultBase.getModRefInfoLoc
        getModRefInfoCalls := AAResultBase.getModRefInfoCalls
        getModRefInfoInst := fun _ _ AAQI => (.ModRef, AAQI)
        getModRefInfoInstCall := fun _ _ AAQI => (.ModRef, AAQI)
        callCapturesBefore := fun _ _ _ AAQI => (.ModRef, AAQI) }
    AAs := [constantComponent .MustAlias, constantComponent .NoAlias]
    AADeps := [] }

end AAResults

/-! ## BatchAAResults -/

/-- The class `BatchAAResults`: `AAResults &AA`, reached through its declared
query functions, the one `AAQueryInfo AAQI`, and the member `SimpleCI`
(identified by its address). -/
structure BatchAAResults where
  AA : AAResults.Queries
  AAQI : AAQueryInfo
  SimpleCI : Nat

namespace BatchAAResults

/-- Constructor `BatchAAResults(AAResults &AAR) : AA(AAR), AAQI(&SimpleCI)`. -/
def ofAAR (AAR : AAResults.Queries) (SimpleCI : Nat) : BatchAAResults :=
  { AA := AAR, AAQI := AAQueryInfo.ofCI SimpleCI, SimpleCI := SimpleCI }

/-- Constructor `BatchAAResults(AAResults &AAR, CaptureInfo *CI) : AA(AAR), AAQI(CI)`. -/
def ofAARWithCI (AAR : AAResults.Queries) (CI : Nat) (SimpleCI : Nat) : BatchAAResults :=
  { AA := AAR, AAQI := AAQueryInfo.ofCI CI, SimpleCI := SimpleCI }

/-- Member `alias(LocA, LocB)`: `return AA.alias(LocA, LocB, AAQI);`. -/
def aliasQuery (B : BatchAAResults) (LocA LocB : MemoryLocation) : AliasResult × BatchAAResults :=
  let r := B.AA.aliasQuery LocA LocB B.AAQI
  (r.1, { B with AAQI := r.2 })

/-- Member `pointsToConstantMemory(Loc, OrLocal)`:
`return AA.pointsToConstantMemory(Loc, AAQI, OrLocal);`. -/
def pointsToConstantMemory (B : BatchAAResults) (Loc : MemoryLocation) (OrLocal : Bool) :
    Bool × BatchAAResults :=
  let r := B.AA.pointsToConstantMemory Loc B.AAQI OrLocal
  (r.1, { B with AAQI := r.2 })

/-- Member `getModRefInfo(Call, Loc)`: `return AA.getModRefInfo(Call, Loc, AAQI);`. -/
def getModRefInfoLoc (B : BatchAAResults) (Call : Nat) (Loc : MemoryLocation) :
    ModRefInfo × BatchAAResults :=
  let r := B.AA.getModRefInfoLoc Call Loc B.AAQI
  (r.1, { B with AAQI := r.2 })

/-- Member `getModRefInfo(Call1, Call2)`: `return AA.getModRefInfo(Call1, Call2, AAQI);`. -/
def getModRefInfoCalls (B : BatchAAResults) (Call1 Call2 : Nat) : ModRefInfo × BatchAAResults :=
  let r := B.AA.getModRefInfoCalls Call1 Call2 B.AAQI
  (r.1, { B with AAQI := r.2 })

/-- Member `getModRefInfo(I, OptLoc)`: `return AA.getModRefInfo(I, OptLoc, AAQI);`. -/
def getModRefInfoInst (B : BatchAAResults) (I : Nat) (OptLoc : Option MemoryLocation) :
    ModRefInfo × BatchAAResults :=
  let r := B.AA.getModRefInfoInst I OptLoc B.AAQI
  (r.1, { B with AAQI := r.2 })

/-- Member `getModRefInfo(I, Call2)`: `return AA.getModRefInfo(I, Call2, AAQI);`. -/
def getModRefInfoInstCall (B : BatchAAResults) (I Call2 : Nat) : ModRefInfo × BatchAAResults :=
  let r := B.AA.getModRefInfoInstCall I Call2 B.AAQI
  (r.1, { B with AAQI := r.2 })

/-- Member `getArgModRefInfo(Call, ArgIdx)`: `return AA.getArgModRefInfo(Call, ArgIdx);`. -/
def getArgModRefInfo (B : BatchAAResults) (Call ArgIdx : Nat) : ModRefInfo :=
  B.AA.getArgModRefInfo Call ArgIdx

/-- Member `getModRefBehavior(Call)`: `return AA.getModRefBehavior(Call);`. -/
def getModRefBehavior (B : BatchAAResults) (Call : Nat) : FunctionModRefBehavior :=
  B.AA.getModRefBehaviorCall Call

/-- Member `isMustAlias(LocA, LocB)`:
`return alias(LocA, LocB) == AliasResult::MustAlias;`. -/
def isMustAlias (B : BatchAAResults) (LocA LocB : MemoryLocation) : Bool × BatchAAResults :=
  let r := B.aliasQuery LocA LocB
  (r.1.Alias == AliasResult.Kind.MustAlias.toNat, r.2)

/-- Member `callCapturesBefore(I, MemLoc, DT)`:
`return AA.callCapturesBefore(I, MemLoc, DT, AAQI);`. -/
def callCapturesBefore (B : BatchAAResults) (I : Nat) (MemLoc : MemoryLocation) (DT : Nat) :
    ModRefInfo × BatchAAResults :=
  let r := B.AA.callCapturesBefore I MemLoc DT B.AAQI
  (r.1, { B with AAQI := r.2 })

/-- One call of a member of a session that goes through the query info. -/
inductive Query where
  | aliasQuery (LocA LocB : MemoryLocation)
  | pointsToConstantMemory (Loc : MemoryLocation) (OrLocal : Bool)
  | getModRefInfoLoc (Call : Nat) (Loc : MemoryLocation)
  | getModRefInfoCalls (Call1 Call2 : Nat)
  | getModRefInfoInst (I : Nat) (OptLoc : Option MemoryLocation)
  | getModRefInfoInstCall (I Call2 : Nat)
  | callCapturesBefore (I : Nat) (MemLoc : MemoryLocation) (DT : Nat)
  deriving DecidableEq, Repr

/-- The value a call returns. -/
inductive Answer where
  | aliasResult (R : AliasResult)
  | bool (b : Bool)
  | modRef (MR : ModRefInfo)
  deriving DecidableEq, Repr

/-- The call `q` made on the session `B`: the returned value and the session
after the call. -/
def call (B : BatchAAResults) : Query → Answer × BatchAAResults
  | .aliasQuery LocA LocB => let r := B.aliasQuery LocA LocB; (.aliasResult r.1, r.2)
  | .pointsToConstantMemory Loc OrLocal =>
    let r := B.pointsToConstantMemory Loc OrLocal; (.bool r.1, r.2)
  | .getModRefInfoLoc Call Loc => let r := B.getModRefInfoLoc Call Loc; (.modRef r.1, r.2)
  | .getModRefInfoCalls Call1 Call2 =>
    let r := B.getModRefInfoCalls Call1 Call2; (.modRef r.1, r.2)
  | .getModRefInfoInst I OptLoc => let r := B.getModRefInfoInst I OptLoc; (.modRef r.1, r.2)
  | .getModRefInfoInstCall I Call2 =>
    let r := B.getModRefInfoInstCall I Call2; (.modRef r.1, r.2)
  | .callCapturesBefore I MemLoc DT =>
    let r := B.callCapturesBefore I MemLoc DT; (.modRef r.1, r.2)

/-- A sequence of calls made on one session, first call first: the returned
values and the session at the end. -/
def run (B : BatchAAResults) : List Query → List Answer × BatchAAResults
  | [] => ([], B)
  | q :: qs =>
    let r := B.call q
    let rest := run r.2 qs
    (r.1 :: rest.1, rest.2)

/-- In the words of the specification: what "the borrowed engine's
corresponding operation returns when given that same `AAQueryInfo`", with the
query info it leaves. -/
def engineAnswer (AA : AAResults.Queries) (AAQI : AAQueryInfo) : Query → Answer × AAQueryInfo
  | .aliasQuery LocA LocB => let r := AA.aliasQuery LocA LocB AAQI; (.aliasResult r.1, r.2)
  | .pointsToConstantMemory Loc OrLocal =>
    let r := AA.pointsToConstantMemory Loc AAQI OrLocal; (.bool r.1, r.2)
  | .getModRefInfoLoc Call Loc => let r := AA.getModRefInfoLoc Call Loc AAQI; (.modRef r.1, r.2)
  | .getModRefInfoCalls Call1 Call2 =>
    let r := AA.getModRefInfoCalls Call1 Call2 AAQI; (.modRef r.1, r.2)
  | .getModRefInfoInst I OptLoc => let r := AA.getModRefInfoInst I OptLoc AAQI; (.modRef r.1, r.2)
  | .getModRefInfoInstCall I Call2 =>
    let r := AA.getModRefInfoInstCall I Call2 AAQI; (.modRef r.1, r.2)
  | .callCapturesBefore I MemLoc DT =>
    let r := AA.callCapturesBefore I MemLoc DT AAQI; (.modRef r.1, r.2)

/-- In the words of the specification: a single persistent `AAQueryInfo`
threaded through a sequence of engine operations, "the cache state left by one
query is the state seen by the next". -/
def threaded (AA : AAResults.Queries) (AAQI : AAQueryInfo) : List Query → List Answer × AAQueryInfo
  | [] => ([], AAQI)
  | q :: qs =>
    let r := engineAnswer AA AAQI q
    let rest := threaded AA r.2 qs
    (r.1 :: rest.1, rest.2)

end BatchAAResults

/-! ## Theorems on AliasResult -/

namespace AliasResult

theorem isInt_offsetBits_iff (n : Int) : isInt OffsetBits n = true ↔ InRange n := by
  simp only [isInt, OffsetBits, InRange, Bool.and_eq_true, decide_eq_true_eq]
  norm_num
  intro _
  omega

theorem wrapSigned_of_inRange (n : Int) (h : InRange n) : wrapSigned OffsetBits n = n := by
  simp only [InRange] at h
  simp only [wrapSigned, OffsetBits]
  norm_num at h ⊢
  omega

theorem setOffset_of_inRange (R : AliasResult) (n : Int) (h : InRange n) :
    R.setOffset n = { R with HasOffset := true, Offset := n } := by
  simp only [setOffset, (isInt_offsetBits_iff n).2 h, if_true, wrapSigned_of_inRange n h]

theorem setOffset_of_not_inRange (R : AliasResult) (n : Int) (h : ¬ InRange n) :
    R.setOffset n = R := by
  have h1 : isInt OffsetBits n = false := by
    cases hb : isInt OffsetBits n
    · rfl
    · exact absurd ((isInt_offsetBits_iff n).1 hb) h
  simp [setOffset, h1]

theorem kind_ofKind (K : Kind) : (ofKind K).kind = some K := by
  cases K <;> rfl

/-- Away from the least offset `-2^22`, `swap` keeps the `Alias` field and
stores the negated offset. -/
theorem swap_negates_offset (R : AliasResult) (h : R.HasOffset = true)
    (hr : InRange R.Offset) (hmin : R.Offset ≠ -(2 : Int) ^ 22) :
    R.swap true = some { R with HasOffset := true, Offset := -R.Offset } := by
  have hneg : InRange (-R.Offset) := by
    simp only [InRange] at hr ⊢
    norm_num at hr hmin ⊢
    omega
  simp [swap, hasOffset, getOffset, h, setOffset_of_inRange R _ hneg]

/-- Claim C1, at the failing input. The result `AliasResult(PartialAlias)`
after `setOffset(-4194304)` carries the offset `-2^22`; `swap()` returns without
tripping the assertion and keeps the kind, but the offset read back is still
`-4194304` rather than its negation `4194304`, with `hasOffset()` still true:
the negated value does not fit the 23-bit field, so the inner `setOffset`
does nothing. -/
theorem swap_min_offset_not_negated :
    ((ofKind .PartialAlias).setOffset (-4194304)).hasOffset = true ∧
    ((ofKind .PartialAlias).setOffset (-4194304)).getOffset = some (-4194304) ∧
    ((ofKind .PartialAlias).setOffset (-4194304)).swap true =
      some { Alias := 2, HasOffset := true, Offset := -4194304 } ∧
    (((ofKind .PartialAlias).setOffset (-4194304)).swap true).map kind =
      some (some .PartialAlias) ∧
    (((ofKind .PartialAlias).setOffset (-4194304)).swap true).map hasOffset = some true ∧
    (((ofKind .PartialAlias).setOffset (-4194304)).swap true).bind getOffset =
      some (-4194304) ∧
    (((ofKind .PartialAlias).setOffset (-4194304)).swap true).bind getOffset ≠
      some 4194304 := by
  have h0 : (ofKind .PartialAlias).setOffset (-4194304) =
      { Alias := 2, HasOffset := true, Offset := -4194304 } := by
    rw [setOffset_of_inRange _ _ (by decide)]
    rfl
  have h1 : ({ Alias := 2, HasOffset := true, Offset := -4194304 } : AliasResult).swap true =
      some { Alias := 2, HasOffset := true, Offset := -4194304 } := by
    have hout : ¬ InRange 4194304 := by decide
    simp [swap, hasOffset, getOffset, setOffset_of_not_inRange _ _ hout]
  rw [h0, h1]
  exact ⟨rfl, rfl, rfl, rfl, rfl, rfl, by decide⟩

/-- Claim C2. For every kind `K` and every integer `n` (in particular every
`int32_t`) outside `[-2^22, 2^22 - 1]`, the result constructed from `K` and then
given `setOffset(n)` has `hasOffset() == false` and still has kind `K`;
`setOffset` is a total function with no error outcome. -/
theorem setOffset_out_of_range_fresh (K : Kind) (n : Int) (h : ¬ InRange n) :
    ((ofKind K).setOffset n).hasOffset = false ∧ ((ofKind K).setOffset n).kind = some K := by
  rw [setOffset_of_not_inRange _ _ h]
  exact ⟨rfl, kind_ofKind K⟩

theorem setOffset_out_of_range_fresh_witness :
    ¬ InRange 4194304 ∧
    (((ofKind .MayAlias).setOffset 4194304).hasOffset = false ∧
      ((ofKind .MayAlias).setOffset 4194304).kind = some .MayAlias) :=
  ⟨by decide, setOffset_out_of_range_fresh .MayAlias 4194304 (by decide)⟩

/-- Claim C3 as stated fails: the result `AliasResult(MustAlias)` after
`setOffset(5)` carries an offset, the `int32_t` value `8388608` lies outside the
23-bit range, and after `setOffset(8388608)` the call `hasOffset()` still
returns true, with the old offset `5`. -/
theorem setOffset_out_of_range_keeps_old_offset :
    ¬ InRange 8388608 ∧ (-(2 : Int) ^ 31 ≤ 8388608 ∧ (8388608 : Int) < 2 ^ 31) ∧
    (((ofKind .MustAlias).setOffset 5).setOffset 8388608).hasOffset = true ∧
    (((ofKind .MustAlias).setOffset 5).setOffset 8388608).getOffset = some 5 := by
  have h5 : (ofKind .MustAlias).setOffset 5 = { Alias := 3, HasOffset := true, Offset := 5 } := by
    rw [setOffset_of_inRange _ _ (by decide)]
    rfl
  have hout : ¬ InRange 8388608 := by decide
  rw [setOffset_of_not_inRange _ _ hout, h5]
  exact ⟨hout, by norm_num, rfl, rfl⟩

/-- Claim C3, amended. For every result `R` and every integer `n` outside
`[-2^22, 2^22 - 1]`, `R.setOffset(n)` leaves `R` as it was: kind, `hasOffset()`
and stored offset are unchanged, so `hasOffset()` is false afterwards exactly
when it was false before. -/
theorem setOffset_out_of_range_unchanged (R : AliasResult) (n : Int) (h : ¬ InRange n) :
    R.setOffset n = R ∧ ((R.setOffset n).hasOffset = false ↔ R.hasOffset = false) := by
  rw [setOffset_of_not_inRange _ _ h]
  exact ⟨rfl, Iff.rfl⟩

theorem setOffset_out_of_range_unchanged_witness :
    ¬ InRange (-4194305) ∧
    ((AliasResult.mk 2 true 7).setOffset (-4194305) = AliasResult.mk 2 true 7 ∧
      (((AliasResult.mk 2 true 7).setOffset (-4194305)).hasOffset = false ↔
        (AliasResult.mk 2 true 7).hasOffset = false)) :=
  ⟨by decide, setOffset_out_of_range_unchanged (AliasResult.mk 2 true 7) (-4194305) (by decide)⟩

/-- Claim C4. For every result `R` and every integer `n` with
`-2^22 <= n <= 2^22 - 1`, after `R.setOffset(n)` the call `hasOffset()` is true,
`getOffset()` returns exactly `n` (the 23-bit field does not truncate it) and
the kind of `R` is unchanged. -/
theorem setOffset_in_range (R : AliasResult) (n : Int) (h : InRange n) :
    (R.setOffset n).hasOffset = true ∧ (R.setOffset n).getOffset = some n ∧
    (R.setOffset n).kind = R.kind ∧ (R.setOffset n).Alias = R.Alias := by
  rw [setOffset_of_inRange _ _ h]
  exact ⟨rfl, rfl, rfl, rfl⟩

theorem setOffset_in_range_witness :
    InRange (-4194304) ∧
    (((ofKind .MustAlias).setOffset (-4194304)).hasOffset = true ∧
      ((ofKind .MustAlias).setOffset (-4194304)).getOffset = some (-4194304) ∧
      ((ofKind .MustAlias).setOffset (-4194304)).kind = (ofKind .MustAlias).kind ∧
      ((ofKind .MustAlias).setOffset (-4194304)).Alias = (ofKind .MustAlias).Alias) :=
  ⟨by decide, setOffset_in_range (ofKind .MustAlias) (-4194304) (by decide)⟩

/-- Claim C5 as stated fails: from the constructor with kind `NoAlias`, the
single call `setOffset(0)` gives a result with `hasOffset()` true whose kind is
`NoAlias`, neither `PartialAlias` nor `MustAlias`. -/
theorem offset_present_on_NoAlias :
    (run (ofKind .NoAlias) [.setOffset 0]).map hasOffset = some true ∧
    (run (ofKind .NoAlias) [.setOffset 0]).map kind = some (some .NoAlias) ∧
    (run (ofKind .NoAlias) [.setOffset 0]).map kind ≠ some (some .PartialAlias) ∧
    (run (ofKind .NoAlias) [.setOffset 0]).map kind ≠ some (some .MustAlias) := by
  have h0 : run (ofKind .NoAlias) [.setOffset 0] =
      some { Alias := 0, HasOffset := true, Offset := 0 } := by
    simp only [run, applyOp]
    rw [setOffset_of_inRange _ _ (by decide)]
    rfl
  rw [h0]
  exact ⟨rfl, rfl, by decide, by decide⟩

theorem applyOp_preserves_alias (R : AliasResult) (op : Op) :
    ∃ R1, R.applyOp op = some R1 ∧ R1.Alias = R.Alias := by
  cases op with
  | setOffset n =>
    refine ⟨R.setOffset n, rfl, ?_⟩
    unfold setOffset
    split <;> rfl
  | swap b =>
    unfold applyOp swap
    by_cases hb : (b && R.hasOffset) = true
    · have hh : R.HasOffset = true := by
        simp only [Bool.and_eq_true, hasOffset] at hb
        exact hb.2
      simp only [hb, if_true, getOffset, hh]
      refine ⟨_, rfl, ?_⟩
      unfold setOffset
      split <;> rfl
    · simp only [hb]
      exact ⟨R, rfl, rfl⟩

theorem run_preserves_alias (ops : List Op) :
    ∀ R : AliasResult, ∃ R1, run R ops = some R1 ∧ R1.Alias = R.Alias := by
  induction ops with
  | nil => intro R; exact ⟨R, rfl, rfl⟩
  | cons op ops ih =>
    intro R
    obtain ⟨R1, h1, ha1⟩ := applyOp_preserves_alias R op
    obtain ⟨R2, h2, ha2⟩ := ih R1
    refine ⟨R2, ?_, by rw [ha2, ha1]⟩
    simp only [run, h1, h2]

/-- Claim C5, amended. For every kind `K` and every sequence of `setOffset` and
`swap` calls applied to the result constructed from `K`, the sequence runs to
the end without tripping an assertion and the final result still has kind `K`:
no call changes the kind and none looks at it, so an offset can be present on
a result of any kind, and it is present only on `PartialAlias`/`MustAlias`
results when the constructor was given one of these two kinds. -/
theorem run_preserves_kind (K : Kind) (ops : List Op) :
    ∃ R, run (ofKind K) ops = some R ∧ R.kind = some K := by
  obtain ⟨R, h, ha⟩ := run_preserves_alias ops (ofKind K)
  refine ⟨R, h, ?_⟩
  have hk := kind_ofKind K
  unfold kind at hk ⊢
  rw [ha]
  exact hk

/-- Claim C6. A result `R`, with or without an offset, converts to boolean
false exactly when its kind is `NoAlias`; results of kind `MayAlias`,
`PartialAlias` and `MustAlias` convert to true; and the result constructed
from a kind `K` reads back kind `K` with `hasOffset()` false. -/
theorem toBool_false_iff_NoAlias :
    (∀ R : AliasResult, R.toBool = false ↔ R.kind = some .NoAlias) ∧
    (∀ R : AliasResult, R.kind = some .MayAlias ∨ R.kind = some .PartialAlias ∨
      R.kind = some .MustAlias → R.toBool = true) ∧
    (∀ K : Kind, (ofKind K).kind = some K ∧ (ofKind K).hasOffset = false) := by
  refine ⟨?_, ?_, ?_⟩
  · intro R
    obtain ⟨a, h, o⟩ := R
    simp only [toBool, kind]
    match a with
    | 0 => simp [Kind.ofNat?]
    | 1 => simp [Kind.ofNat?]
    | 2 => simp [Kind.ofNat?]
    | 3 => simp [Kind.ofNat?]
    | n + 4 => simp [Kind.ofNat?]
  · intro R
    obtain ⟨a, h, o⟩ := R
    simp only [toBool, kind]
    match a with
    | 0 => simp [Kind.ofNat?]
    | n + 1 => simp
  · intro K
    exact ⟨kind_ofKind K, rfl⟩

end AliasResult

/-! ## Theorems on FunctionModRefBehavior -/

theorem testBit_lt_four (m : Nat) (hm : m < 4) (j : Nat) (hj : 2 ≤ j) :
    m.testBit j = false := by
  apply Nat.testBit_lt_two_pow
  calc m < 2 ^ 2 := hm
    _ ≤ 2 ^ j := Nat.pow_le_pow_right (by decide) hj

theorem testBit_three (j : Nat) : (3 : Nat).testBit j = decide (j < 2) := by
  have h : (3 : Nat) = 2 ^ 2 - 1 := by decide
  rw [h, Nat.testBit_two_pow_sub_one]

/-- Clearing a 2-bit field at position `p` of a 32-bit word and storing `m`
there, then reading the field at `p`, gives `m`. -/
theorem field_set_same (d m p : Nat) (hm : m < 4) (hp : p + 2 ≤ 32) :
    ((d &&& not32 (3 <<< p) ||| (m <<< p)) >>> p) &&& 3 = m := by
  apply Nat.eq_of_testBit_eq
  intro i
  simp only [Nat.testBit_and, Nat.testBit_or, Nat.testBit_shiftRight, Nat.testBit_shiftLeft,
    not32, Nat.testBit_xor, Nat.testBit_two_pow_sub_one, testBit_three]
  by_cases hi : i < 2
  · have h1 : p + i < 32 := by omega
    have h2 : p + i - p = i := by omega
    simp [hi, h1, h2]
  · have h3 := testBit_lt_four m hm i (by omega)
    simp [hi, h3]

/-- Clearing a 2-bit field at position `p` of a 32-bit word and storing `m`
there leaves the 2-bit field at a disjoint position `q` as it was. -/
theorem field_set_other (d m p q : Nat) (hm : m < 4) (hq : q + 2 ≤ 32)
    (hpq : p + 2 ≤ q ∨ q + 2 ≤ p) :
    ((d &&& not32 (3 <<< p) ||| (m <<< p)) >>> q) &&& 3 = (d >>> q) &&& 3 := by
  apply Nat.eq_of_testBit_eq
  intro i
  simp only [Nat.testBit_and, Nat.testBit_or, Nat.testBit_shiftRight, Nat.testBit_shiftLeft,
    not32, Nat.testBit_xor, Nat.testBit_two_pow_sub_one, testBit_three]
  by_cases hi : i < 2
  · have h1 : q + i < 32 := by omega
    rcases hpq with h | h
    · have h3 := testBit_lt_four m hm (q + i - p) (by omega)
      have h4 : ¬ (q + i - p < 2) := by omega
      simp [hi, h1, h3, h4]
    · have h4 : ¬ (q + i ≥ p) := by omega
      simp [hi, h1, h4]
  · simp [hi]

theorem ModRefInfo.toNat_lt_four (MR : ModRefInfo) : MR.toNat < 4 := by
  cases MR <;> decide

theorem ModRefInfo.ofBits_toNat (MR : ModRefInfo) : ModRefInfo.ofBits MR.toNat = MR := by
  cases MR <;> rfl

namespace FunctionModRefBehavior

theorem locMask_eq : LocMask = 3 := by decide

theorem getLocationPos_le (Loc : Location) : getLocationPos Loc + 2 ≤ 32 := by
  cases Loc <;> decide

theorem getLocationPos_disjoint (L1 L2 : Location) (h : L1 ≠ L2) :
    getLocationPos L1 + 2 ≤ getLocationPos L2 ∨ getLocationPos L2 + 2 ≤ getLocationPos L1 := by
  cases L1 <;> cases L2 <;> first | exact absurd rfl h | decide

theorem getModRef_setModRef_same (B : FunctionModRefBehavior) (Loc : Location)
    (MR : ModRefInfo) : getModRef (setModRef B Loc MR) Loc = MR := by
  simp only [getModRef, setModRef, locMask_eq]
  rw [field_set_same _ _ _ MR.toNat_lt_four (getLocationPos_le Loc)]
  exact ModRefInfo.ofBits_toNat MR

theorem getModRef_setModRef_other (B : FunctionModRefBehavior) (L1 L2 : Location)
    (MR : ModRefInfo) (h : L1 ≠ L2) :
    getModRef (setModRef B L1 MR) L2 = getModRef B L2 := by
  simp only [getModRef, setModRef, locMask_eq]
  rw [field_set_other _ _ _ _ MR.toNat_lt_four (getLocationPos_le L2)
    (getLocationPos_disjoint L1 L2 h)]

theorem roundTripExample_data : roundTripExample.Data = 33 := by decide

theorem getModRefAny_eq (B : FunctionModRefBehavior) :
    getModRefAny B =
      ((ModRefInfo.NoModRef.or (getModRef B .ArgMem)).or (getModRef B .InaccessibleMem)).or
        (getModRef B .Other) := rfl

/-- Claim C7. For every behavior `B`, location class `L` and `ModRefInfo`
value `MR`, `B.getWithModRef(L, MR).getModRef(L) == MR`; and a behavior given
`ArgMem = Ref`, `InaccessibleMem = NoModRef`, `Other = Mod` through
`getWithModRef` (from any starting behavior, and so also the one built from the
constructor) reads back exactly `Ref`, `NoModRef` and `Mod`. -/
theorem getModRef_getWithModRef :
    (∀ (B : FunctionModRefBehavior) (L : Location) (MR : ModRefInfo),
      getModRef (getWithModRef B L MR) L = MR) ∧
    (∀ B : FunctionModRefBehavior,
      getModRef (getWithModRef (getWithModRef (getWithModRef B .ArgMem .Ref)
        .InaccessibleMem .NoModRef) .Other .Mod) .ArgMem = .Ref ∧
      getModRef (getWithModRef (getWithModRef (getWithModRef B .ArgMem .Ref)
        .InaccessibleMem .NoModRef) .Other .Mod) .InaccessibleMem = .NoModRef ∧
      getModRef (getWithModRef (getWithModRef (getWithModRef B .ArgMem .Ref)
        .InaccessibleMem .NoModRef) .Other .Mod) .Other = .Mod) ∧
    (getModRef roundTripExample .ArgMem = .Ref ∧
      getModRef roundTripExample .InaccessibleMem = .NoModRef ∧
      getModRef roundTripExample .Other = .Mod) := by
  refine ⟨?_, ?_, ?_⟩
  · intro B L MR
    exact getModRef_setModRef_same B L MR
  · intro B
    simp only [getWithModRef]
    refine ⟨?_, ?_, ?_⟩
    · rw [getModRef_setModRef_other _ _ _ _ (by decide),
        getModRef_setModRef_other _ _ _ _ (by decide), getModRef_setModRef_same]
    · rw [getModRef_setModRef_other _ _ _ _ (by decide), getModRef_setModRef_same]
    · rw [getModRef_setModRef_same]
  · exact ⟨by decide, by decide, by decide⟩

/-- Claim C8 as stated fails: the behavior with `ArgMem = Ref`,
`InaccessibleMem = NoModRef` and `Other = Mod` (packed word 33) has
`onlyAccessesArgPointees()` false, because clearing `ArgMem` leaves the word 32
of the `Other` field. -/
theorem onlyAccessesArgPointees_roundTripExample :
    getModRef roundTripExample .ArgMem = .Ref ∧
    getModRef roundTripExample .InaccessibleMem = .NoModRef ∧
    getModRef roundTripExample .Other = .Mod ∧
    (getWithoutLoc roundTripExample .ArgMem).Data = 32 ∧
    ¬ (onlyAccessesArgPointees roundTripExample = true) := by
  refine ⟨by decide, by decide, by decide, by decide, by decide⟩

/-- Claim C8, amended. For every behavior whose fields are `ArgMem = Ref`,
`InaccessibleMem = NoModRef` and `Other = Mod`, `onlyAccessesArgPointees()`
returns false (the `Other` field is not `NoModRef`). -/
theorem onlyAccessesArgPointees_false (B : FunctionModRefBehavior)
    (_hA : getModRef B .ArgMem = .Ref) (_hI : getModRef B .InaccessibleMem = .NoModRef)
    (hO : getModRef B .Other = .Mod) : onlyAccessesArgPointees B = false := by
  cases hb : onlyAccessesArgPointees B
  · rfl
  · exfalso
    have hd : (setModRef B .ArgMem .NoModRef).Data = 0 := by
      simpa [onlyAccessesArgPointees, getWithoutLoc, doesNotAccessMemory] using hb
    have h1 := getModRef_setModRef_other B .ArgMem .Other .NoModRef (by decide)
    rw [hO] at h1
    simp only [getModRef, hd] at h1
    revert h1
    decide

theorem onlyAccessesArgPointees_false_witness :
    (getModRef roundTripExample .ArgMem = .Ref ∧
      getModRef roundTripExample .InaccessibleMem = .NoModRef ∧
      getModRef roundTripExample .Other = .Mod) ∧
    onlyAccessesArgPointees roundTripExample = false :=
  ⟨⟨by decide, by decide, by decide⟩,
    onlyAccessesArgPointees_false roundTripExample (by decide) (by decide) (by decide)⟩

theorem noMod_fold (a b c : ModRefInfo) :
    (!isModSet (((ModRefInfo.NoModRef.or a).or b).or c)) = true ↔
      (a = .NoModRef ∨ a = .Ref) ∧ (b = .NoModRef ∨ b = .Ref) ∧ (c = .NoModRef ∨ c = .Ref) := by
  cases a <;> cases b <;> cases c <;> decide

theorem noRef_fold (a b c : ModRefInfo) :
    (!isRefSet (((ModRefInfo.NoModRef.or a).or b).or c)) = true ↔
      (a = .NoModRef ∨ a = .Mod) ∧ (b = .NoModRef ∨ b = .Mod) ∧ (c = .NoModRef ∨ c = .Mod) := by
  cases a <;> cases b <;> cases c <;> decide

theorem modBit_clear_iff (x : ModRefInfo) :
    x.toNat.testBit 1 = false ↔ x = .NoModRef ∨ x = .Ref := by
  cases x <;> decide

theorem refBit_clear_iff (x : ModRefInfo) :
    x.toNat.testBit 0 = false ↔ x = .NoModRef ∨ x = .Mod := by
  cases x <;> decide

theorem forall_location_iff (P : Location → Prop) :
    (∀ L : Location, P L) ↔ P .ArgMem ∧ P .InaccessibleMem ∧ P .Other := by
  constructor
  · intro h
    exact ⟨h _, h _, h _⟩
  · intro h L
    cases L
    · exact h.1
    · exact h.2.1
    · exact h.2.2

/-- Claim C9. For every behavior `B`, `onlyReadsMemory()` is true exactly when
none of the three location fields has the `Mod` bit set, that is when each
field is `NoModRef` or `Ref`, equivalently when bit 1 (the bit of `Mod = 2`) of
each field's encoding is clear; `onlyWritesMemory()` is true exactly when none
has the `Ref` bit set, that is when each field is `NoModRef` or `Mod`,
equivalently when bit 0 (the bit of `Ref = 1`) of each field's encoding is
clear; `onlyReadsMemory()` is false for the behavior with `ArgMem = Ref`,
`InaccessibleMem = NoModRef`, `Other = Mod`, and on the presets `readOnly()`
only reads, `writeOnly()` only writes, `none()` does both and `unknown()`
neither. -/
theorem onlyReadsMemory_iff :
    (∀ B : FunctionModRefBehavior,
      (onlyReadsMemory B = true ↔
        ∀ L : Location, getModRef B L = .NoModRef ∨ getModRef B L = .Ref) ∧
      (onlyReadsMemory B = true ↔ ∀ L : Location, (getModRef B L).toNat.testBit 1 = false) ∧
      (onlyWritesMemory B = true ↔
        ∀ L : Location, getModRef B L = .NoModRef ∨ getModRef B L = .Mod) ∧
      (onlyWritesMemory B = true ↔ ∀ L : Location, (getModRef B L).toNat.testBit 0 = false)) ∧
    (onlyReadsMemory roundTripExample = false ∧ onlyWritesMemory roundTripExample = false) ∧
    (onlyReadsMemory readOnly = true ∧ onlyWritesMemory readOnly = false) ∧
    (onlyReadsMemory writeOnly = false ∧ onlyWritesMemory writeOnly = true) ∧
    (onlyReadsMemory none = true ∧ onlyWritesMemory none = true) ∧
    (onlyReadsMemory unknown = false ∧ onlyWritesMemory unknown = false) := by
  refine ⟨?_, ⟨by decide, by decide⟩, ⟨by decide, by decide⟩, ⟨by decide, by decide⟩,
    ⟨by decide, by decide⟩, ⟨by decide, by decide⟩⟩
  intro B
  have hR : onlyReadsMemory B = true ↔
      ∀ L : Location, getModRef B L = .NoModRef ∨ getModRef B L = .Ref := by
    rw [forall_location_iff]
    simp only [onlyReadsMemory, getModRefAny_eq]
    exact noMod_fold _ _ _
  have hW : onlyWritesMemory B = true ↔
      ∀ L : Location, getModRef B L = .NoModRef ∨ getModRef B L = .Mod := by
    rw [forall_location_iff]
    simp only [onlyWritesMemory, getModRefAny_eq]
    exact noRef_fold _ _ _
  refine ⟨hR, ?_, hW, ?_⟩
  · rw [hR]
    constructor
    · intro h L
      exact (modBit_clear_iff _).2 (h L)
    · intro h L
      exact (modBit_clear_iff _).1 (h L)
  · rw [hW]
    constructor
    · intro h L
      exact (refBit_clear_iff _).2 (h L)
    · intro h L
      exact (refBit_clear_iff _).1 (h L)

/-- Claim C10. The three location fields are independent: for every behavior
`B`, every `ModRefInfo` value `MR` and distinct location classes `L` and `L2`,
`B.getWithModRef(L, MR).getModRef(L2) == B.getModRef(L2)`; the same holds for
`getWithoutLoc(L)`. -/
theorem getModRef_getWithModRef_other (B : FunctionModRefBehavior) (MR : ModRefInfo)
    (L L2 : Location) (h : L ≠ L2) :
    getModRef (getWithModRef B L MR) L2 = getModRef B L2 ∧
    getModRef (getWithoutLoc B L) L2 = getModRef B L2 :=
  ⟨getModRef_setModRef_other B L L2 MR h, getModRef_setModRef_other B L L2 .NoModRef h⟩

theorem getModRef_getWithModRef_other_witness :
    Location.InaccessibleMem ≠ Location.Other ∧
    (getModRef (getWithModRef unknown .InaccessibleMem .Ref) .Other = getModRef unknown .Other ∧
      getModRef (getWithoutLoc unknown .InaccessibleMem) .Other = getModRef unknown .Other) :=
  ⟨by decide, getModRef_getWithModRef_other unknown .Ref .InaccessibleMem .Other (by decide)⟩

end FunctionModRefBehavior

/-! ## Theorems on the lattice operations of ModRefInfo -/

/-- Claim C13. For every `ModRefInfo` value `x`, `unionModRef(x, NoModRef) == x`
and `intersectModRef(x, ModRef) == x`, the two operations being the bitwise
`|` and `&` on the 2-bit encoding. -/
theorem unionModRef_intersectModRef_identity :
    (∀ x : ModRefInfo, unionModRef x .NoModRef = x ∧ intersectModRef x .ModRef = x) ∧
    (∀ x y : ModRefInfo, (unionModRef x y).toNat = x.toNat ||| y.toNat ∧
      (intersectModRef x y).toNat = x.toNat &&& y.toNat) := by
  constructor
  · intro x
    cases x <;> exact ⟨rfl, rfl⟩
  · intro x y
    cases x <;> cases y <;> exact ⟨rfl, rfl⟩

/-- Claim C14. `unionModRef` and `intersectModRef` are each commutative and
associative on the four `ModRefInfo` values. -/
theorem unionModRef_intersectModRef_comm_assoc (x y z : ModRefInfo) :
    unionModRef x y = unionModRef y x ∧
    intersectModRef x y = intersectModRef y x ∧
    unionModRef (unionModRef x y) z = unionModRef x (unionModRef y z) ∧
    intersectModRef (intersectModRef x y) z = intersectModRef x (intersectModRef y z) := by
  cases x <;> cases y <;> cases z <;> exact ⟨rfl, rfl, rfl, rfl⟩

/-- Claim C15. `ModRefInfo` is a bounded lattice under union and
intersection: `NoModRef` is the bottom (`intersect(x, NoModRef) == NoModRef`),
`ModRef` is the top (`union(x, ModRef) == ModRef`), the bitwise union and
intersection of two encodings is again the encoding of one of the four values
(below 4, and the one the operation returns), and `Ref` and `Mod` are
incomparable: their intersection is `NoModRef` and their union is `ModRef`. -/
theorem modRefInfo_bounded_lattice :
    (∀ x : ModRefInfo, intersectModRef x .NoModRef = .NoModRef ∧
      unionModRef x .ModRef = .ModRef) ∧
    (∀ x y : ModRefInfo, (x.toNat ||| y.toNat) < 4 ∧ (x.toNat &&& y.toNat) < 4 ∧
      (unionModRef x y).toNat = x.toNat ||| y.toNat ∧
      (intersectModRef x y).toNat = x.toNat &&& y.toNat) ∧
    (intersectModRef .Ref .Mod = .NoModRef ∧ unionModRef .Ref .Mod = .ModRef) ∧
    (unionModRef .Ref .Mod ≠ .Ref ∧ unionModRef .Ref .Mod ≠ .Mod) := by
  refine ⟨?_, ?_, ⟨rfl, rfl⟩, ⟨by decide, by decide⟩⟩
  · intro x
    cases x <;> exact ⟨rfl, rfl⟩
  · intro x y
    cases x <;> cases y <;> exact ⟨by decide, by decide, rfl, rfl⟩

/-! ## Theorems on the algebra of FunctionModRefBehavior -/

namespace FunctionModRefBehavior

theorem setModRef_data_lt (B : FunctionModRefBehavior) (Loc : Location) (MR : ModRefInfo)
    (h : B.Data < 64) : (setModRef B Loc MR).Data < 64 := by
  have h1 : B.Data &&& not32 (LocMask <<< getLocationPos Loc) < 2 ^ 6 :=
    Nat.lt_of_le_of_lt Nat.and_le_left h
  have h2 : MR.toNat <<< getLocationPos Loc < 2 ^ 6 := by
    cases Loc <;> cases MR <;> decide
  exact Nat.or_lt_two_pow h1 h2

theorem ofModRef_data_lt (MR : ModRefInfo) : (ofModRef MR).Data < 64 := by
  cases MR <;> decide

/-- Every obtainable behavior keeps its packed word within the low 6 bits. -/
theorem Obtainable.data_lt {B : FunctionModRefBehavior} (h : Obtainable B) : B.Data < 64 := by
  induction h with
  | ofLoc Loc MR => exact setModRef_data_lt _ Loc MR (by decide)
  | ofModRef MR => exact ofModRef_data_lt MR
  | unknown => decide
  | none => decide
  | readOnly => decide
  | writeOnly => decide
  | argMemOnly MR => exact setModRef_data_lt _ _ MR (by decide)
  | inaccessibleMemOnly MR => exact setModRef_data_lt _ _ MR (by decide)
  | inaccessibleOrArgMemOnly MR =>
    exact setModRef_data_lt _ _ MR (setModRef_data_lt _ _ MR (by decide))
  | getWithModRef Loc MR _ ih => exact setModRef_data_lt _ Loc MR ih
  | getWithoutLoc Loc _ ih => exact setModRef_data_lt _ Loc _ ih
  | inter _ _ ihA _ => exact Nat.lt_of_le_of_lt Nat.and_le_left ihA
  | interAssign _ _ ihA _ => exact Nat.lt_of_le_of_lt Nat.and_le_left ihA
  | union _ _ ihA ihB => exact Nat.or_lt_two_pow (n := 6) ihA ihB
  | unionAssign _ _ ihA ihB => exact Nat.or_lt_two_pow (n := 6) ihA ihB

/-- A packed word below 64 is the sum of its three fields at their positions. -/
theorem data_eq_fields : ∀ d, d < 64 →
    d = (getModRef { Data := d } .ArgMem).toNat +
      4 * (getModRef { Data := d } .InaccessibleMem).toNat +
      16 * (getModRef { Data := d } .Other).toNat := by
  decide

theorem data_eq_of_fields (A B : FunctionModRefBehavior) (hA : A.Data < 64) (hB : B.Data < 64)
    (h : ∀ L : Location, getModRef A L = getModRef B L) : A = B := by
  obtain ⟨a⟩ := A
  obtain ⟨b⟩ := B
  have ha := data_eq_fields a hA
  have hb := data_eq_fields b hB
  rw [h .ArgMem, h .InaccessibleMem, h .Other] at ha
  have hab : a = b := ha.trans hb.symm
  rw [hab]

theorem and_sixty_three (d : Nat) (h : d < 64) : d &&& 63 = d := by
  have h63 : (63 : Nat) = 2 ^ 6 - 1 := by decide
  rw [h63, Nat.and_pow_two_sub_one_eq_mod]
  exact Nat.mod_eq_of_lt h

theorem none_data : none.Data = 0 := by decide

theorem unknown_data : unknown.Data = 63 := by decide

/-- Claim C11. For every behavior `X` obtainable through the public interface,
`X | none()` equals `X` and `X & unknown()` equals `X`, both as objects and
under `operator==`: `none()` is the identity of union and `unknown()`, the
all-`ModRef` behavior, is the identity of intersection. -/
theorem union_none_inter_unknown (X : FunctionModRefBehavior) (h : Obtainable X) :
    union X none = X ∧ inter X unknown = X ∧
    eq (union X none) X = true ∧ eq (inter X unknown) X = true := by
  have hu : union X none = X := by
    simp only [union, none_data, Nat.or_zero]
  have hi : inter X unknown = X := by
    simp only [inter, unknown_data, and_sixty_three X.Data h.data_lt]
  rw [hu, hi]
  simp [eq]

theorem union_none_inter_unknown_witness :
    Obtainable roundTripExample ∧
    (union roundTripExample none = roundTripExample ∧
      inter roundTripExample unknown = roundTripExample ∧
      eq (union roundTripExample none) roundTripExample = true ∧
      eq (inter roundTripExample unknown) roundTripExample = true) :=
  ⟨Obtainable.getWithModRef _ _ (Obtainable.getWithModRef _ _ (Obtainable.ofLoc _ _)),
    union_none_inter_unknown roundTripExample
      (Obtainable.getWithModRef _ _ (Obtainable.getWithModRef _ _ (Obtainable.ofLoc _ _)))⟩

/-- Claim C12. For all behaviors `A`, `B`, `C`: `A | B == B | A`,
`A & B == B & A`, `(A | B) | C == A | (B | C)` and
`(A & B) & C == A & (B & C)`, under `operator==` and as objects; the in-place
forms `|=` and `&=` leave in the object the value that `|` and `&` return. -/
theorem union_inter_comm_assoc (A B C : FunctionModRefBehavior) :
    (union A B = union B A ∧ inter A B = inter B A ∧
      union (union A B) C = union A (union B C) ∧
      inter (inter A B) C = inter A (inter B C)) ∧
    (eq (union A B) (union B A) = true ∧ eq (inter A B) (inter B A) = true ∧
      eq (union (union A B) C) (union A (union B C)) = true ∧
      eq (inter (inter A B) C) (inter A (inter B C)) = true) ∧
    (unionAssign A B = union A B ∧ interAssign A B = inter A B) := by
  have h1 : union A B = union B A := by
    simp only [union, Nat.lor_comm]
  have h2 : inter A B = inter B A := by
    simp only [inter, Nat.land_comm]
  have h3 : union (union A B) C = union A (union B C) := by
    simp only [union, Nat.lor_assoc]
  have h4 : inter (inter A B) C = inter A (inter B C) := by
    simp only [inter, Nat.land_assoc]
  refine ⟨⟨h1, h2, h3, h4⟩, ⟨?_, ?_, ?_, ?_⟩, ⟨rfl, rfl⟩⟩
  · rw [h1]; simp [eq]
  · rw [h2]; simp [eq]
  · rw [h3]; simp [eq]
  · rw [h4]; simp [eq]

/-- Claim C16. Each named preset has the fields its name states: `unknown()`,
`none()`, `readOnly()` and `writeOnly()` hold `ModRef`, `NoModRef`, `Ref` and
`Mod` in all three location classes; for every `mr`, `argMemOnly(mr)` holds
`mr` in `ArgMem` and `NoModRef` elsewhere, `inaccessibleMemOnly(mr)` holds `mr`
in `InaccessibleMem` and `NoModRef` elsewhere, and
`inaccessibleOrArgMemOnly(mr)` holds `mr` in `ArgMem` and `InaccessibleMem` and
`NoModRef` in `Other`. -/
theorem preset_fields :
    (∀ L : Location, getModRef unknown L = .ModRef ∧ getModRef none L = .NoModRef ∧
      getModRef readOnly L = .Ref ∧ getModRef writeOnly L = .Mod) ∧
    (∀ mr : ModRefInfo, getModRef (argMemOnly mr) .ArgMem = mr ∧
      getModRef (argMemOnly mr) .InaccessibleMem = .NoModRef ∧
      getModRef (argMemOnly mr) .Other = .NoModRef) ∧
    (∀ mr : ModRefInfo, getModRef (inaccessibleMemOnly mr) .ArgMem = .NoModRef ∧
      getModRef (inaccessibleMemOnly mr) .InaccessibleMem = mr ∧
      getModRef (inaccessibleMemOnly mr) .Other = .NoModRef) ∧
    (∀ mr : ModRefInfo, getModRef (inaccessibleOrArgMemOnly mr) .ArgMem = mr ∧
      getModRef (inaccessibleOrArgMemOnly mr) .InaccessibleMem = mr ∧
      getModRef (inaccessibleOrArgMemOnly mr) .Other = .NoModRef) := by
  refine ⟨?_, ?_, ?_, ?_⟩
  · intro L
    cases L <;> exact ⟨by decide, by decide, by decide, by decide⟩
  · intro mr
    cases mr <;> exact ⟨by decide, by decide, by decide⟩
  · intro mr
    cases mr <;> exact ⟨by decide, by decide, by decide⟩
  · intro mr
    cases mr <;> exact ⟨by decide, by decide, by decide⟩

/-- Claim C17. Equality is field-wise: for behaviors `A` and `B` obtainable
through the public interface, `A == B` holds exactly when
`A.getModRef(L) == B.getModRef(L)` for each of the three location classes, and
`A != B` is the negation of `A == B`. -/
theorem eq_iff_fields (A B : FunctionModRefBehavior) (hA : Obtainable A) (hB : Obtainable B) :
    (eq A B = true ↔ ∀ L : Location, getModRef A L = getModRef B L) ∧
    ne A B = !(eq A B) ∧ (ne A B = true ↔ ¬ (eq A B = true)) := by
  refine ⟨⟨?_, ?_⟩, rfl, ?_⟩
  · intro h L
    have hd : A.Data = B.Data := by simpa [eq] using h
    simp only [getModRef, hd]
  · intro h
    have hab := data_eq_of_fields A B hA.data_lt hB.data_lt h
    rw [hab]
    simp [eq]
  · simp [ne]

theorem eq_iff_fields_witness :
    (Obtainable (argMemOnly .Ref) ∧ Obtainable readOnly) ∧
    ((eq (argMemOnly .Ref) readOnly = true ↔
        ∀ L : Location, getModRef (argMemOnly .Ref) L = getModRef readOnly L) ∧
      ne (argMemOnly .Ref) readOnly = !(eq (argMemOnly .Ref) readOnly) ∧
      (ne (argMemOnly .Ref) readOnly = true ↔ ¬ (eq (argMemOnly .Ref) readOnly = true))) :=
  ⟨⟨Obtainable.argMemOnly _, Obtainable.readOnly⟩,
    eq_iff_fields (argMemOnly .Ref) readOnly (Obtainable.argMemOnly _) Obtainable.readOnly⟩

theorem or_fold_eq_noModRef (a b c : ModRefInfo) :
    ((ModRefInfo.NoModRef.or a).or b).or c = .NoModRef ↔
      a = .NoModRef ∧ b = .NoModRef ∧ c = .NoModRef := by
  cases a <;> cases b <;> cases c <;> decide

/-- Claim C18. For every behavior `B` obtainable through the public interface,
`doesNotAccessMemory()` is true exactly when all three location fields are
`NoModRef`, exactly when `B == none()`, and exactly when the any-location
`getModRef()` is `NoModRef`. -/
theorem doesNotAccessMemory_iff (B : FunctionModRefBehavior) (h : Obtainable B) :
    (doesNotAccessMemory B = true ↔ ∀ L : Location, getModRef B L = .NoModRef) ∧
    (doesNotAccessMemory B = true ↔ eq B none = true) ∧
    (doesNotAccessMemory B = true ↔ getModRefAny B = .NoModRef) := by
  have hfields : doesNotAccessMemory B = true ↔ ∀ L : Location, getModRef B L = .NoModRef := by
    constructor
    · intro h0 L
      have hd : B.Data = 0 := by simpa [doesNotAccessMemory] using h0
      simp only [getModRef, hd]
      cases L <;> decide
    · intro hL
      have hd := data_eq_fields B.Data h.data_lt
      have e1 := hL .ArgMem
      have e2 := hL .InaccessibleMem
      have e3 := hL .Other
      simp only [getModRef] at e1 e2 e3 hd
      rw [e1, e2, e3] at hd
      simp only [doesNotAccessMemory, hd]
      decide
  refine ⟨hfields, ?_, ?_⟩
  · simp [doesNotAccessMemory, eq, none_data]
  · rw [hfields, getModRefAny_eq, or_fold_eq_noModRef]
    constructor
    · intro hL
      exact ⟨hL .ArgMem, hL .InaccessibleMem, hL .Other⟩
    · intro hL L
      cases L
      · exact hL.1
      · exact hL.2.1
      · exact hL.2.2

theorem doesNotAccessMemory_iff_witness :
    Obtainable (getWithoutLoc (argMemOnly .ModRef) .ArgMem) ∧
    ((doesNotAccessMemory (getWithoutLoc (argMemOnly .ModRef) .ArgMem) = true ↔
        ∀ L : Location, getModRef (getWithoutLoc (argMemOnly .ModRef) .ArgMem) L = .NoModRef) ∧
      (doesNotAccessMemory (getWithoutLoc (argMemOnly .ModRef) .ArgMem) = true ↔
        eq (getWithoutLoc (argMemOnly .ModRef) .ArgMem) none = true) ∧
      (doesNotAccessMemory (getWithoutLoc (argMemOnly .ModRef) .ArgMem) = true ↔
        getModRefAny (getWithoutLoc (argMemOnly .ModRef) .ArgMem) = .NoModRef)) :=
  ⟨Obtainable.getWithoutLoc _ (Obtainable.argMemOnly _),
    doesNotAccessMemory_iff (getWithoutLoc (argMemOnly .ModRef) .ArgMem)
      (Obtainable.getWithoutLoc _ (Obtainable.argMemOnly _))⟩

end FunctionModRefBehavior

/-! ## Theorems on AAQueryInfo -/

namespace AAQueryInfo

/-- Claim C19. A cache entry is definitive exactly when its assumption-use
count is negative: `isDefinitive()` is true for `NumAssumptionUses == -1` and
false for every `NumAssumptionUses >= 0`, the freshly seeded count 0 included,
whatever the stored result. -/
theorem isDefinitive_iff :
    (∀ E : CacheEntry, E.isDefinitive = true ↔ E.NumAssumptionUses < 0) ∧
    (∀ R : AliasResult, (CacheEntry.mk R (-1)).isDefinitive = true ∧
      (CacheEntry.mk R 0).isDefinitive = false) ∧
    (∀ (R : AliasResult) (n : Int), 0 ≤ n → (CacheEntry.mk R n).isDefinitive = false) := by
  refine ⟨?_, ?_, ?_⟩
  · intro E
    simp [CacheEntry.isDefinitive]
  · intro R
    exact ⟨by simp [CacheEntry.isDefinitive], by simp [CacheEntry.isDefinitive]⟩
  · intro R n hn
    simp only [CacheEntry.isDefinitive, decide_eq_false_iff_not, not_lt]
    exact hn

/-- Claim C20. For every query info `Q`, `Q.withEmptyCache()` returns a query
info whose alias cache is empty, whose `Depth` is that of `Q`, whose capture
info provider is that of `Q`, whose `NumAssumptionUses` is 0 and whose
`AssumptionBasedResults` is empty; and `Q` itself is left as it was. -/
theorem withEmptyCache_spec (Q : AAQueryInfo) :
    (withEmptyCache Q).2.AliasCache = [] ∧
    (withEmptyCache Q).2.Depth = Q.Depth ∧
    (withEmptyCache Q).2.CI = Q.CI ∧
    (withEmptyCache Q).2.NumAssumptionUses = 0 ∧
    (withEmptyCache Q).2.AssumptionBasedResults = [] ∧
    (withEmptyCache Q).1 = Q :=
  ⟨rfl, rfl, rfl, rfl, rfl, rfl⟩

end AAQueryInfo

/-! ## Theorems on the component interface -/

/-- Claim C21. A component that overrides none of the operations answers every
query with the least precise value: `alias` returns `MayAlias` with no offset,
`pointsToConstantMemory` returns false, `getArgModRefInfo` returns `ModRef`,
both `getModRefBehavior` overloads return `FunctionModRefBehavior::unknown()`
(`ModRef` in every location class) and both `getModRefInfo` overloads return
`ModRef`, for all arguments; the operations are total and hand back the query
info they were given. -/
theorem AAResultBase.defaults_least_precise (LocA LocB : MemoryLocation) (AAQI : AAQueryInfo)
    (OrLocal : Bool) (Call Call2 F ArgIdx : Nat) :
    (((AAResultBase.defaults.aliasQuery LocA LocB AAQI).1.kind = some .MayAlias ∧
        (AAResultBase.defaults.aliasQuery LocA LocB AAQI).1.hasOffset = false) ∧
      (AAResultBase.defaults.aliasQuery LocA LocB AAQI).2 = AAQI) ∧
    AAResultBase.defaults.pointsToConstantMemory LocA AAQI OrLocal = (false, AAQI) ∧
    AAResultBase.defaults.getArgModRefInfo Call ArgIdx = .ModRef ∧
    (AAResultBase.defaults.getModRefBehaviorCall Call = FunctionModRefBehavior.unknown ∧
      AAResultBase.defaults.getModRefBehaviorFn F = FunctionModRefBehavior.unknown ∧
      ∀ L, FunctionModRefBehavior.getModRef FunctionModRefBehavior.unknown L = .ModRef) ∧
    AAResultBase.defaults.getModRefInfoLoc Call LocA AAQI = (.ModRef, AAQI) ∧
    AAResultBase.defaults.getModRefInfoCalls Call Call2 AAQI = (.ModRef, AAQI) := by
  refine ⟨⟨⟨rfl, rfl⟩, rfl⟩, rfl, rfl, ⟨rfl, rfl, ?_⟩, rfl, rfl⟩
  intro L
  cases L <;> decide

/-- Claim C22. For a component `R` that was never attached to an aggregation
(back-reference null), each of the seven operations of the proxy from
`getBestAAResults()` returns the answer of `R` itself; for a component
registered with the aggregation `E` through `addAAResult`, each returns the
answer of `E` for the same arguments, and the adapter appended to the list of
`E` forwards to the component. -/
theorem AAResultsProxy.delegates (D : AAResults.Concept) (E : AAResults) (R : AAResultBase)
    (LocA LocB : MemoryLocation) (AAQI : AAQueryInfo) (OrLocal : Bool)
    (Call Call2 F ArgIdx : Nat) :
    ((AAResultBase.ofDerived D).getBestAAResults.aliasQuery LocA LocB AAQI =
        D.aliasQuery LocA LocB AAQI ∧
      (AAResultBase.ofDerived D).getBestAAResults.pointsToConstantMemory LocA AAQI OrLocal =
        D.pointsToConstantMemory LocA AAQI OrLocal ∧
      (AAResultBase.ofDerived D).getBestAAResults.getArgModRefInfo Call ArgIdx =
        D.getArgModRefInfo Call ArgIdx ∧
      (AAResultBase.ofDerived D).getBestAAResults.getModRefBehaviorCall Call =
        D.getModRefBehaviorCall Call ∧
      (AAResultBase.ofDerived D).getBestAAResults.getModRefBehaviorFn F =
        D.getModRefBehaviorFn F ∧
      (AAResultBase.ofDerived D).getBestAAResults.getModRefInfoLoc Call LocA AAQI =
        D.getModRefInfoLoc Call LocA AAQI ∧
      (AAResultBase.ofDerived D).getBestAAResults.getModRefInfoCalls Call Call2 AAQI =
        D.getModRefInfoCalls Call Call2 AAQI) ∧
    ((E.addAAResult R).2.getBestAAResults.aliasQuery LocA LocB AAQI =
        E.queries.aliasQuery LocA LocB AAQI ∧
      (E.addAAResult R).2.getBestAAResults.pointsToConstantMemory LocA AAQI OrLocal =
        E.queries.pointsToConstantMemory LocA AAQI OrLocal ∧
      (E.addAAResult R).2.getBestAAResults.getArgModRefInfo Call ArgIdx =
        E.queries.getArgModRefInfo Call ArgIdx ∧
      (E.addAAResult R).2.getBestAAResults.getModRefBehaviorCall Call =
        E.queries.getModRefBehaviorCall Call ∧
      (E.addAAResult R).2.getBestAAResults.getModRefBehaviorFn F =
        E.queries.getModRefBehaviorFn F ∧
      (E.addAAResult R).2.getBestAAResults.getModRefInfoLoc Call LocA AAQI =
        E.queries.getModRefInfoLoc Call LocA AAQI ∧
      (E.addAAResult R).2.getBestAAResults.getModRefInfoCalls Call Call2 AAQI =
        E.queries.getModRefInfoCalls Call Call2 AAQI) ∧
    ((E.addAAResult R).2.derived = R.derived ∧
      (E.addAAResult R).1.AAs.length = E.AAs.length + 1 ∧
      (E.addAAResult R).1.AAs.getLast? = some (AAResults.Model (E.addAAResult R).2)) :=
  ⟨⟨rfl, rfl, rfl, rfl, rfl, rfl, rfl⟩, ⟨rfl, rfl, rfl, rfl, rfl, rfl, rfl⟩,
    ⟨rfl, by simp [AAResults.addAAResult], by simp [AAResults.addAAResult]⟩⟩

/-! ## Theorems on BatchAAResults -/

namespace BatchAAResults

/-- A single call on a session returns what the operation of the engine
returns on the query info of the session, stores the query info the engine
leaves, and keeps the engine. -/
theorem call_eq_engineAnswer (B : BatchAAResults) (q : Query) :
    (B.call q).1 = (engineAnswer B.AA B.AAQI q).1 ∧
    (B.call q).2 = { B with AAQI := (engineAnswer B.AA B.AAQI q).2 } := by
  cases q <;> exact ⟨rfl, rfl⟩

theorem run_eq_threaded (qs : List Query) :
    ∀ B : BatchAAResults, (B.run qs).1 = (threaded B.AA B.AAQI qs).1 ∧
      (B.run qs).2 = { B with AAQI := (threaded B.AA B.AAQI qs).2 } := by
  induction qs with
  | nil => intro B; exact ⟨rfl, rfl⟩
  | cons q qs ih =>
    intro B
    obtain ⟨h1, h2⟩ := call_eq_engineAnswer B q
    obtain ⟨i1, i2⟩ := ih (B.call q).2
    simp only [run, threaded]
    rw [i1, i2, h1, h2]
    exact ⟨rfl, rfl⟩

/-- Claim C23. A session holds one `AAQueryInfo` and threads it through every
query that uses the cache: for any sequence of `alias`,
`pointsToConstantMemory`, `getModRefInfo` and `callCapturesBefore` calls on one
session, the values returned are those the operations of the borrowed engine
return when the one query info is passed from each call to the next, the
session ends with the query info so reached and with the same engine; in
particular each single call returns what the engine returns on the query info
of the session, and the next call sees the query info that call left. -/
theorem session_threads_query_info (B : BatchAAResults) (q : Query) (qs : List Query) :
    ((B.run (q :: qs)).1 = (threaded B.AA B.AAQI (q :: qs)).1 ∧
      (B.run (q :: qs)).2.AAQI = (threaded B.AA B.AAQI (q :: qs)).2 ∧
      (B.run (q :: qs)).2.AA = B.AA ∧ (B.run (q :: qs)).2.SimpleCI = B.SimpleCI) ∧
    ((B.call q).1 = (engineAnswer B.AA B.AAQI q).1 ∧
      (B.call q).2.AAQI = (engineAnswer B.AA B.AAQI q).2 ∧ (B.call q).2.AA = B.AA) ∧
    (B.run (q :: qs)).1 = (B.call q).1 :: ((B.call q).2.run qs).1 := by
  obtain ⟨h1, h2⟩ := run_eq_threaded (q :: qs) B
  obtain ⟨c1, c2⟩ := call_eq_engineAnswer B q
  refine ⟨⟨h1, ?_, ?_, ?_⟩, ⟨c1, ?_, ?_⟩, rfl⟩
  · rw [h2]
  · rw [h2]
  · rw [h2]
  · rw [c2]
  · rw [c2]

end BatchAAResults

/-! ## Theorems on the aggregation of alias answers -/

namespace AAResults

theorem aliasLoop_of_noAlias (morePrecise : AliasResult → AliasResult → Bool)
    (LocA LocB : MemoryLocation) (AAs : List Concept) (Result : AliasResult) (AAQI : AAQueryInfo)
    (h : Result.kind = some .NoAlias) :
    aliasLoop morePrecise LocA LocB AAs Result AAQI = (Result, AAQI) := by
  cases AAs with
  | nil => rfl
  | cons AA rest => simp only [aliasLoop, h, if_true]

theorem aliasLoop_noAlias (morePrecise : AliasResult → AliasResult → Bool)
    (hmax : NoAliasMostPrecise morePrecise) (LocA LocB : MemoryLocation) (AA : Concept)
    (hAA : ReportsNoAlias AA LocA LocB) (AAs : List Concept) :
    AA ∈ AAs → ∀ (Result : AliasResult) (AAQI : AAQueryInfo),
      (aliasLoop morePrecise LocA LocB AAs Result AAQI).1.kind = some .NoAlias := by
  induction AAs with
  | nil => intro hmem; cases hmem
  | cons AA0 rest ih =>
    intro hmem Result AAQI
    by_cases hR : Result.kind = some .NoAlias
    · rw [aliasLoop_of_noAlias morePrecise LocA LocB _ Result AAQI hR]
      exact hR
    · simp only [aliasLoop, hR, if_false]
      rcases List.mem_cons.1 hmem with heq | hrest
      · subst heq
        have ha := hAA AAQI
        have hm := hmax _ _ ha hR
        rw [hm]
        simp only [if_true]
        rw [aliasLoop_of_noAlias morePrecise LocA LocB _ _ _ ha]
        exact ha
      · exact ih hrest _ _

/-- Claim C24. For every ordered list of registered components and every pair
of locations `(LocA, LocB)`: when some registered component reports `NoAlias`
for the pair, the aggregated answer of `AAResults::alias` is `NoAlias`, whatever
the other components answer, wherever the component stands in the list and
whatever query info the query starts from; here for the aggregation as the
specification describes it, under any precision order in which `NoAlias` is the
most precise value. -/
theorem alias_noAlias_of_component (morePrecise : AliasResult → AliasResult → Bool)
    (hmax : NoAliasMostPrecise morePrecise) (E : AAResults) (LocA LocB : MemoryLocation)
    (AA : Concept) (hmem : AA ∈ E.AAs) (hAA : ReportsNoAlias AA LocA LocB) :
    (∀ AAQI : AAQueryInfo,
      (aliasAggregated morePrecise E LocA LocB AAQI).1.kind = some .NoAlias) ∧
    (∀ CI : Nat, (aliasRoot morePrecise E CI LocA LocB).kind = some .NoAlias) :=
  ⟨fun AAQI => aliasLoop_noAlias morePrecise hmax LocA LocB AA hAA E.AAs hmem _ AAQI,
    fun _ => aliasLoop_noAlias morePrecise hmax LocA LocB AA hAA E.AAs hmem _ _⟩

theorem examplePrecision_noAliasMostPrecise : NoAliasMostPrecise examplePrecision := by
  intro a r ha hr
  simp only [examplePrecision, ha, decide_eq_true_eq]
  match hk : r.kind with
  | some .NoAlias => exact absurd hk hr
  | some .MustAlias => decide
  | some .PartialAlias => decide
  | some .MayAlias => decide
  | Option.none => decide

theorem alias_noAlias_of_component_witness :
    (NoAliasMostPrecise examplePrecision ∧
      constantComponent .NoAlias ∈ exampleEngine.AAs ∧
      ReportsNoAlias (constantComponent .NoAlias) (MemoryLocation.mk 1 8 Option.none)
        (MemoryLocation.mk 2 8 Option.none)) ∧
    ((∀ AAQI : AAQueryInfo,
        (aliasAggregated examplePrecision exampleEngine (MemoryLocation.mk 1 8 Option.none)
          (MemoryLocation.mk 2 8 Option.none) AAQI).1.kind = some .NoAlias) ∧
      (∀ CI : Nat, (aliasRoot examplePrecision exampleEngine CI (MemoryLocation.mk 1 8 Option.none)
          (MemoryLocation.mk 2 8 Option.none)).kind = some .NoAlias)) :=
  ⟨⟨examplePrecision_noAliasMostPrecise, by simp [exampleEngine], fun _ => rfl⟩,
    alias_noAlias_of_component examplePrecision examplePrecision_noAliasMostPrecise exampleEngine
      (MemoryLocation.mk 1 8 Option.none) (MemoryLocation.mk 2 8 Option.none)
      (constantComponent .NoAlias) (by simp [exampleEngine]) (fun _ => rfl)⟩

end AAResults

/-! ## Theorems on the predicates and the field structure of FunctionModRefBehavior -/

theorem ModRefInfo.toNat_eq_zero_iff (MR : ModRefInfo) : MR.toNat = 0 ↔ MR = .NoModRef := by
  cases MR <;> decide

theorem ModRefInfo.toNat_ofBits : ∀ x, x < 4 → (ModRefInfo.ofBits x).toNat = x := by
  decide

namespace FunctionModRefBehavior

theorem data_eq_zero_iff_fields (B : FunctionModRefBehavior) (h : B.Data < 64) :
    B.Data = 0 ↔ ∀ L : Location, getModRef B L = .NoModRef := by
  constructor
  · intro hd L
    simp only [getModRef, hd]
    cases L <;> decide
  · intro hL
    have hd := data_eq_fields B.Data h
    have e1 := hL .ArgMem
    have e2 := hL .InaccessibleMem
    have e3 := hL .Other
    simp only [getModRef] at e1 e2 e3 hd
    rw [e1, e2, e3] at hd
    rw [hd]
    decide

theorem getWithoutLoc_data_eq_zero_iff (B : FunctionModRefBehavior) (h : B.Data < 64)
    (L : Location) :
    (getWithoutLoc B L).Data = 0 ↔ ∀ L2 : Location, L2 ≠ L → getModRef B L2 = .NoModRef := by
  have hlt : (getWithoutLoc B L).Data < 64 := setModRef_data_lt B L .NoModRef h
  rw [data_eq_zero_iff_fields _ hlt]
  constructor
  · intro hall L2 hne
    have h2 := hall L2
    rw [getWithoutLoc, getModRef_setModRef_other B L L2 .NoModRef (Ne.symm hne)] at h2
    exact h2
  · intro hall L2
    by_cases hne : L2 = L
    · rw [hne]
      exact getModRef_setModRef_same B L .NoModRef
    · rw [getWithoutLoc, getModRef_setModRef_other B L L2 .NoModRef (Ne.symm hne)]
      exact hall L2 hne

/-- Claim C25. For every behavior `B` obtainable through the public interface:
`onlyAccessesArgPointees()` is true exactly when the `InaccessibleMem` and
`Other` fields are both `NoModRef`; `onlyAccessesInaccessibleMem()` exactly when
the `ArgMem` and `Other` fields are both `NoModRef`;
`onlyAccessesInaccessibleOrArgMem()` exactly when the `Other` field is
`NoModRef`; `doesAccessArgPointees()` exactly when the `ArgMem` field is not
`NoModRef`; so each of the first two predicates implies the third. -/
theorem onlyAccesses_iff (B : FunctionModRefBehavior) (h : Obtainable B) :
    (onlyAccessesArgPointees B = true ↔
      getModRef B .InaccessibleMem = .NoModRef ∧ getModRef B .Other = .NoModRef) ∧
    (onlyAccessesInaccessibleMem B = true ↔
      getModRef B .ArgMem = .NoModRef ∧ getModRef B .Other = .NoModRef) ∧
    (onlyAccessesInaccessibleOrArgMem B = true ↔ getModRef B .Other = .NoModRef) ∧
    (doesAccessArgPointees B = true ↔ getModRef B .ArgMem ≠ .NoModRef) ∧
    (onlyAccessesArgPointees B = true → onlyAccessesInaccessibleOrArgMem B = true) ∧
    (onlyAccessesInaccessibleMem B = true → onlyAccessesInaccessibleOrArgMem B = true) := by
  have hA : onlyAccessesArgPointees B = true ↔
      getModRef B .InaccessibleMem = .NoModRef ∧ getModRef B .Other = .NoModRef := by
    simp only [onlyAccessesArgPointees, doesNotAccessMemory, beq_iff_eq]
    rw [getWithoutLoc_data_eq_zero_iff B h.data_lt]
    constructor
    · intro hall
      exact ⟨hall _ (by decide), hall _ (by decide)⟩
    · intro hb L2 hne
      cases L2
      · exact absurd rfl hne
      · exact hb.1
      · exact hb.2
  have hI : onlyAccessesInaccessibleMem B = true ↔
      getModRef B .ArgMem = .NoModRef ∧ getModRef B .Other = .NoModRef := by
    simp only [onlyAccessesInaccessibleMem, doesNotAccessMemory, beq_iff_eq]
    rw [getWithoutLoc_data_eq_zero_iff B h.data_lt]
    constructor
    · intro hall
      exact ⟨hall _ (by decide), hall _ (by decide)⟩
    · intro hb L2 hne
      cases L2
      · exact hb.1
      · exact absurd rfl hne
      · exact hb.2
  have hO : onlyAccessesInaccessibleOrArgMem B = true ↔ getModRef B .Other = .NoModRef := by
    simp [onlyAccessesInaccessibleOrArgMem, isNoModRef]
  refine ⟨hA, hI, hO, ?_, ?_, ?_⟩
  · simp [doesAccessArgPointees, isModOrRefSet]
  · intro h1
    exact hO.2 (hA.1 h1).2
  · intro h1
    exact hO.2 (hI.1 h1).2

theorem onlyAccesses_iff_witness :
    Obtainable (argMemOnly .Ref) ∧
    ((onlyAccessesArgPointees (argMemOnly .Ref) = true ↔
        getModRef (argMemOnly .Ref) .InaccessibleMem = .NoModRef ∧
          getModRef (argMemOnly .Ref) .Other = .NoModRef) ∧
      (onlyAccessesInaccessibleMem (argMemOnly .Ref) = true ↔
        getModRef (argMemOnly .Ref) .ArgMem = .NoModRef ∧
          getModRef (argMemOnly .Ref) .Other = .NoModRef) ∧
      (onlyAccessesInaccessibleOrArgMem (argMemOnly .Ref) = true ↔
        getModRef (argMemOnly .Ref) .Other = .NoModRef) ∧
      (doesAccessArgPointees (argMemOnly .Ref) = true ↔
        getModRef (argMemOnly .Ref) .ArgMem ≠ .NoModRef) ∧
      (onlyAccessesArgPointees (argMemOnly .Ref) = true →
        onlyAccessesInaccessibleOrArgMem (argMemOnly .Ref) = true) ∧
      (onlyAccessesInaccessibleMem (argMemOnly .Ref) = true →
        onlyAccessesInaccessibleOrArgMem (argMemOnly .Ref) = true)) :=
  ⟨Obtainable.argMemOnly _, onlyAccesses_iff (argMemOnly .Ref) (Obtainable.argMemOnly _)⟩

theorem field_of_or (a b p : Nat) :
    ((a ||| b) >>> p) &&& 3 = ((a >>> p) &&& 3) ||| ((b >>> p) &&& 3) := by
  apply Nat.eq_of_testBit_eq
  intro i
  simp only [Nat.testBit_and, Nat.testBit_or, Nat.testBit_shiftRight]
  cases a.testBit (p + i) <;> cases b.testBit (p + i) <;> cases (3 : Nat).testBit i <;> rfl

theorem field_of_and (a b p : Nat) :
    ((a &&& b) >>> p) &&& 3 = ((a >>> p) &&& 3) &&& ((b >>> p) &&& 3) := by
  apply Nat.eq_of_testBit_eq
  intro i
  simp only [Nat.testBit_and, Nat.testBit_shiftRight]
  cases a.testBit (p + i) <;> cases b.testBit (p + i) <;> cases (3 : Nat).testBit i <;> rfl

theorem field_lt_four (d p : Nat) : (d >>> p) &&& 3 < 4 :=
  Nat.and_lt_two_pow (n := 2) _ (by decide)

theorem getModRef_union (A B : FunctionModRefBehavior) (L : Location) :
    getModRef (union A B) L = (getModRef A L).or (getModRef B L) := by
  simp only [getModRef, union, ModRefInfo.or, locMask_eq, field_of_or,
    ModRefInfo.toNat_ofBits _ (field_lt_four _ _)]

theorem getModRef_inter (A B : FunctionModRefBehavior) (L : Location) :
    getModRef (inter A B) L = (getModRef A L).and (getModRef B L) := by
  simp only [getModRef, inter, ModRefInfo.and, locMask_eq, field_of_and,
    ModRefInfo.toNat_ofBits _ (field_lt_four _ _)]

theorem modRef_and_narrows (x y : ModRefInfo) :
    (isModSet (x.and y) = true → isModSet x = true) ∧
    (isRefSet (x.and y) = true → isRefSet x = true) := by
  cases x <;> cases y <;> decide

theorem modRef_or_widens (x y : ModRefInfo) :
    (isModSet x = true → isModSet (x.or y) = true) ∧
    (isRefSet x = true → isRefSet (x.or y) = true) := by
  cases x <;> cases y <;> decide

/-- Claim C26. Union and intersection act on each location class separately:
for all behaviors `A`, `B` and every location class `L`,
`(A | B).getModRef(L) == A.getModRef(L) | B.getModRef(L)` and
`(A & B).getModRef(L) == A.getModRef(L) & B.getModRef(L)`; so intersecting only
narrows (every bit of `A & B`, and every `Mod` or `Ref` bit of one of its
fields, is set in `A`) and uniting only widens (every bit of `A`, and every
`Mod` or `Ref` bit of one of its fields, is set in `A | B`). -/
theorem union_inter_fieldwise (A B : FunctionModRefBehavior) (L : Location) :
    (getModRef (union A B) L = (getModRef A L).or (getModRef B L) ∧
      getModRef (inter A B) L = (getModRef A L).and (getModRef B L)) ∧
    ((∀ i : Nat, (inter A B).Data.testBit i = true → A.Data.testBit i = true) ∧
      (isModSet (getModRef (inter A B) L) = true → isModSet (getModRef A L) = true) ∧
      (isRefSet (getModRef (inter A B) L) = true → isRefSet (getModRef A L) = true)) ∧
    ((∀ i : Nat, A.Data.testBit i = true → (union A B).Data.testBit i = true) ∧
      (isModSet (getModRef A L) = true → isModSet (getModRef (union A B) L) = true) ∧
      (isRefSet (getModRef A L) = true → isRefSet (getModRef (union A B) L) = true)) := by
  refine ⟨⟨getModRef_union A B L, getModRef_inter A B L⟩, ⟨?_, ?_, ?_⟩, ⟨?_, ?_, ?_⟩⟩
  · intro i hi
    simp only [inter, Nat.testBit_and, Bool.and_eq_true] at hi
    exact hi.1
  · rw [getModRef_inter]
    exact (modRef_and_narrows _ _).1
  · rw [getModRef_inter]
    exact (modRef_and_narrows _ _).2
  · intro i hi
    simp only [union, Nat.testBit_or, hi, Bool.true_or]
  · rw [getModRef_union]
    exact (modRef_or_widens _ _).1
  · rw [getModRef_union]
    exact (modRef_or_widens _ _).2

/-- Claim C27. Every behavior obtainable through the public interface (the two
public constructors, the presets, `getWithModRef`, `getWithoutLoc`, `|`, `&`,
`|=`, `&=`) uses only the low 6 bits of its packed word: `Data < 64`, no bit
from position 6 on is set, and each field is below 4 and decodes to the one of
the four `ModRefInfo` values with that encoding. -/
theorem obtainable_low_six_bits (B : FunctionModRefBehavior) (h : Obtainable B) :
    B.Data < 64 ∧ (∀ i : Nat, 6 ≤ i → B.Data.testBit i = false) ∧
    (∀ L : Location, (B.Data >>> getLocationPos L) &&& LocMask < 4 ∧
      (getModRef B L).toNat = (B.Data >>> getLocationPos L) &&& LocMask) ∧
    B.Data = (getModRef B .ArgMem).toNat + 4 * (getModRef B .InaccessibleMem).toNat +
      16 * (getModRef B .Other).toNat := by
  have hlt := h.data_lt
  refine ⟨hlt, ?_, ?_, data_eq_fields B.Data hlt⟩
  · intro i hi
    apply Nat.testBit_lt_two_pow
    calc B.Data < 2 ^ 6 := hlt
      _ ≤ 2 ^ i := Nat.pow_le_pow_right (by decide) hi
  · intro L
    rw [locMask_eq]
    exact ⟨field_lt_four _ _, by
      simp only [getModRef, locMask_eq, ModRefInfo.toNat_ofBits _ (field_lt_four _ _)]⟩

theorem obtainable_low_six_bits_witness :
    Obtainable (union (inaccessibleOrArgMemOnly .ModRef) writeOnly) ∧
    ((union (inaccessibleOrArgMemOnly .ModRef) writeOnly).Data < 64 ∧
      (∀ i : Nat, 6 ≤ i →
        (union (inaccessibleOrArgMemOnly .ModRef) writeOnly).Data.testBit i = false) ∧
      (∀ L : Location,
        ((union (inaccessibleOrArgMemOnly .ModRef) writeOnly).Data >>> getLocationPos L) &&&
            LocMask < 4 ∧
          (getModRef (union (inaccessibleOrArgMemOnly .ModRef) writeOnly) L).toNat =
            ((union (inaccessibleOrArgMemOnly .ModRef) writeOnly).Data >>> getLocationPos L) &&&
              LocMask) ∧
      (union (inaccessibleOrArgMemOnly .ModRef) writeOnly).Data =
        (getModRef (union (inaccessibleOrArgMemOnly .ModRef) writeOnly) .ArgMem).toNat +
          4 * (getModRef (union (inaccessibleOrArgMemOnly .ModRef) writeOnly)
            .InaccessibleMem).toNat +
          16 * (getModRef (union (inaccessibleOrArgMemOnly .ModRef) writeOnly) .Other).toNat) :=
  ⟨Obtainable.union (Obtainable.inaccessibleOrArgMemOnly _) Obtainable.writeOnly,
    obtainable_low_six_bits _
      (Obtainable.union (Obtainable.inaccessibleOrArgMemOnly _) Obtainable.writeOnly)⟩

end FunctionModRefBehavior

/-! ## The involution `swap` of AliasResult -/

namespace AliasResult

theorem swap_of_no_offset (R : AliasResult) (b : Bool) (h : R.HasOffset = false) :
    R.swap b = some R := by
  simp [swap, hasOffset, h]

theorem swap_false (R : AliasResult) : R.swap false = some R := by
  simp [swap]

theorem swap_isSome (R : AliasResult) (b : Bool) : ∃ R1, R.swap b = some R1 := by
  cases hO : R.HasOffset
  · exact ⟨R, swap_of_no_offset R b hO⟩
  · cases b
    · exact ⟨R, swap_false R⟩
    · exact ⟨R.setOffset (-R.Offset), by simp [swap, hasOffset, getOffset, hO]⟩

theorem swap_min (R : AliasResult) (h : R.HasOffset = true) (hmin : R.Offset = -(2 : Int) ^ 22) :
    R.swap true = some R := by
  have hout : ¬ InRange (-R.Offset) := by
    rw [hmin]
    decide
  simp [swap, hasOffset, getOffset, h, setOffset_of_not_inRange R _ hout]

theorem swap_swap (R : AliasResult) (h : InRange R.Offset) :
    ∃ R1, R.swap true = some R1 ∧ R1.swap true = some R := by
  cases hO : R.HasOffset
  · exact ⟨R, swap_of_no_offset R true hO, swap_of_no_offset R true hO⟩
  · by_cases hmin : R.Offset = -(2 : Int) ^ 22
    · exact ⟨R, swap_min R hO hmin, swap_min R hO hmin⟩
    · refine ⟨_, swap_negates_offset R hO h hmin, ?_⟩
      have h2 : InRange (-R.Offset) := by
        simp only [InRange] at h ⊢
        norm_num at h hmin ⊢
        omega
      have h3 : -R.Offset ≠ -(2 : Int) ^ 22 := by
        simp only [InRange] at h
        norm_num at h ⊢
        omega
      rw [swap_negates_offset _ rfl h2 h3]
      obtain ⟨a, ho, o⟩ := R
      simp only at hO
      simp [hO]

/-- Claim C28. `swap` is an involution that never trips the assertion of
`getOffset`: for every result `R` (its offset field within the 23-bit range,
with or without an offset present, the extreme offsets included), `swap()`
applied twice returns without failing and gives back `R`, with the same kind,
the same `hasOffset()` and the same offset; `swap(false)` leaves `R` as it
was; and no call of `swap` fails, since `getOffset()` is only reached when
`hasOffset()` is true. -/
theorem swap_involution (R : AliasResult) (h : InRange R.Offset) :
    (∃ R1 R2, R.swap true = some R1 ∧ R1.swap true = some R2 ∧ R2 = R ∧
      R2.kind = R.kind ∧ R2.hasOffset = R.hasOffset ∧ R2.Offset = R.Offset ∧
      R2.getOffset = R.getOffset) ∧
    R.swap false = some R ∧
    (∀ (R0 : AliasResult) (b : Bool), (R0.swap b).isSome = true) := by
  obtain ⟨R1, h1, h2⟩ := swap_swap R h
  refine ⟨⟨R1, R, h1, h2, rfl, rfl, rfl, rfl, rfl⟩, swap_false R, ?_⟩
  intro R0 b
  obtain ⟨R3, h3⟩ := swap_isSome R0 b
  rw [h3]
  rfl

theorem swap_involution_witness :
    InRange (AliasResult.mk 3 true (-4194304)).Offset ∧
    ((∃ R1 R2, (AliasResult.mk 3 true (-4194304)).swap true = some R1 ∧
        R1.swap true = some R2 ∧ R2 = AliasResult.mk 3 true (-4194304) ∧
        R2.kind = (AliasResult.mk 3 true (-4194304)).kind ∧
        R2.hasOffset = (AliasResult.mk 3 true (-4194304)).hasOffset ∧
        R2.Offset = (AliasResult.mk 3 true (-4194304)).Offset ∧
        R2.getOffset = (AliasResult.mk 3 true (-4194304)).getOffset) ∧
      (AliasResult.mk 3 true (-4194304)).swap false = some (AliasResult.mk 3 true (-4194304)) ∧
      (∀ (R0 : AliasResult) (b : Bool), (R0.swap b).isSome = true)) :=
  ⟨by decide, swap_involution (AliasResult.mk 3 true (-4194304)) (by decide)⟩

end AliasResult

end llvm
